import Mathlib

/-!
# ModbusTCP web portal scripts: validation and request glue

A shallow embedding of the browser-side scripts under `data/js`:
`scripts.js`, `ap-config.js`, `config_manager.js` and `wifi-status.js`.

JavaScript strings are sequences of UTF-16 code units, so a string is modelled
as a list of natural numbers (each below 65536 for a real string); `length`
counts code units, as `String.prototype.length` does.
-/

namespace ModbusTCP

/-! ## Strings -/

/-- A JavaScript string: its UTF-16 code units, in order. -/
abbrev JSString := List Nat

/-- The code units of a string literal of the source (literals used here are
all in the Basic Multilingual Plane, one code unit per character). -/
def lit (s : String) : JSString := s.toList.map Char.toNat

/-- ECMAScript `WhiteSpace` and `LineTerminator` code units: the set matched by
`\s` in a regular expression and stripped by `String.prototype.trim`. -/
def isWhiteSpace (c : Nat) : Bool :=
  c == 0x09 || c == 0x0A || c == 0x0B || c == 0x0C || c == 0x0D || c == 0x20 ||
  c == 0xA0 || c == 0x1680 || (0x2000 ≤ c && c ≤ 0x200A) ||
  c == 0x2028 || c == 0x2029 || c == 0x202F || c == 0x205F || c == 0x3000 ||
  c == 0xFEFF

/-- Character class `[0-9]`, also written `\d` (without the `u`/`i` flags). -/
def isDigit (c : Nat) : Bool := 0x30 ≤ c && c ≤ 0x39

/-- Drop leading white space. -/
def trimStart (s : JSString) : JSString := s.dropWhile isWhiteSpace

/-- Drop trailing white space. -/
def trimEnd (s : JSString) : JSString := (s.reverse.dropWhile isWhiteSpace).reverse

/-- The method `String.prototype.trim`. -/
def trim (s : JSString) : JSString := trimEnd (trimStart s)

/-- The method `String.prototype.endsWith` (one argument). -/
def endsWith (s suffix : JSString) : Bool := suffix.isSuffixOf s

/-! ## Numbers -/

/-- A JavaScript Number.  Every finite binary64 value is a rational, so finite
values are carried exactly; `-0` is carried as `0` (no operation used by the
source tells them apart). -/
inductive JSNumber where
  | nan : JSNumber
  | posInf : JSNumber
  | negInf : JSNumber
  | finite (q : ℚ) : JSNumber
  deriving DecidableEq

namespace JSNumber

/-- The abstract operation `Number::lessThan`; `none` is `undefined`. -/
def lessThan : JSNumber → JSNumber → Option Bool
  | nan, _ => none
  | _, nan => none
  | posInf, _ => some false
  | _, posInf => some true
  | _, negInf => some false
  | negInf, _ => some true
  | finite a, finite b => some (decide (a < b))

/-- The operator `a < b` on Numbers. -/
def lt (a b : JSNumber) : Bool := lessThan a b == some true

/-- The operator `a > b` on Numbers. -/
def gt (a b : JSNumber) : Bool := lessThan b a == some true

/-- The operator `a >= b` on Numbers. -/
def ge (a b : JSNumber) : Bool := lessThan a b == some false

/-- The operator `a <= b` on Numbers. -/
def le (a b : JSNumber) : Bool := lessThan b a == some false

/-- The function `Number.isInteger` on a Number. -/
def isInteger : JSNumber → Bool
  | finite q => q.isInt
  | _ => false

/-- The global function `isNaN` on a Number. -/
def isNaN : JSNumber → Bool
  | nan => true
  | _ => false

/-- The Number value for a natural number: exact below 2^53, otherwise rounded
to 53 significant bits, ties to even, and to `+Infinity` from 2^1024 on. -/
def ofNat (n : Nat) : JSNumber :=
  if n < 2 ^ 53 then finite n else
    let e := Nat.log2 n - 52
    let q := n / 2 ^ e
    let r := n % 2 ^ e
    let half := 2 ^ (e - 1)
    let q1 := if half < r ∨ (r = half ∧ q % 2 = 1) then q + 1 else q
    if 2 ^ 1024 ≤ q1 * 2 ^ e then posInf else finite ((q1 * 2 ^ e : Nat) : ℚ)

/-- Unary minus on Numbers. -/
def neg : JSNumber → JSNumber
  | nan => nan
  | posInf => negInf
  | negInf => posInf
  | finite q => finite (-q)

end JSNumber

/-- Value of a code unit as a digit in the given radix, if it is one. -/
def digitValue (radix c : Nat) : Option Nat :=
  let v : Option Nat :=
    if isDigit c then some (c - 0x30)
    else if 0x61 ≤ c ∧ c ≤ 0x7A then some (c - 0x61 + 10)
    else if 0x41 ≤ c ∧ c ≤ 0x5A then some (c - 0x41 + 10)
    else none
  v.bind (fun d => if d < radix then some d else none)

/-- The longest prefix of radix digits, as digit values. -/
def leadingDigits (radix : Nat) : JSString → List Nat
  | [] => []
  | c :: t =>
    match digitValue radix c with
    | some d => d :: leadingDigits radix t
    | none => []

/-- Strip one leading sign; the flag says whether it was `-`. -/
def stripSign : JSString → Bool × JSString
  | [] => (false, [])
  | c :: t => if c = 0x2D then (true, t) else if c = 0x2B then (false, t) else (false, c :: t)

/-- Strip a leading `0x` or `0X`; the first component is the radix to use. -/
def stripHexPrefix : JSString → Nat × JSString
  | c :: d :: t =>
    if c = 0x30 ∧ (d = 0x78 ∨ d = 0x58) then (16, t) else (10, c :: d :: t)
  | s => (10, s)

/-- The global function `parseInt(string)` called without a radix: leading
white space is skipped, then an optional sign, then an optional `0x`/`0X`
prefix selecting radix 16 (radix 10 otherwise), then the longest run of
digits; anything after that run is ignored.  No digit gives `NaN`. -/
def parseInt (s : JSString) : JSNumber :=
  let signed := stripSign (trimStart s)
  let body := stripHexPrefix signed.2
  let ds := leadingDigits body.1 body.2
  if ds = [] then JSNumber.nan
  else
    let n := ds.foldl (fun acc d => body.1 * acc + d) 0
    if signed.1 then (JSNumber.ofNat n).neg else JSNumber.ofNat n

/-- The function `validatePort(port)` of scripts.js. -/
def validatePort (port : JSNumber) : Bool :=
  port.isInteger && port.ge (.finite 1) && port.le (.finite 65535)

/-! ## Regular expressions

The patterns of the source use character classes, concatenation, alternation,
`?`, bounded repetition and `+` applied to a character class.  `run` is a
backtracking matcher: it returns, in the priority order of the ECMAScript
matcher, every remainder of the input left after matching a prefix. -/

/-- Abstract syntax of the regular expressions of the source. -/
inductive Regex where
  /-- The empty pattern. -/
  | empty : Regex
  /-- One code unit satisfying a class predicate. -/
  | cls (p : Nat → Bool) : Regex
  /-- Concatenation. -/
  | seq (a b : Regex) : Regex
  /-- Alternation `a|b`. -/
  | alt (a b : Regex) : Regex
  /-- Greedy option `a?`. -/
  | opt (a : Regex) : Regex
  /-- Greedy `[class]+`. -/
  | plus (p : Nat → Bool) : Regex

namespace Regex

/-- A literal code unit. -/
def chr (c : Nat) : Regex := cls (fun x => x == c)

/-- The range `[lo-hi]`. -/
def range (lo hi : Nat) : Regex := cls (fun x => lo ≤ x && x ≤ hi)

/-- Exact repetition `a{n}`. -/
def times : Nat → Regex → Regex
  | 0, _ => empty
  | n + 1, a => seq a (times n a)

/-- Greedy bounded repetition `a{0,n}`. -/
def upTo : Nat → Regex → Regex
  | 0, _ => empty
  | n + 1, a => opt (seq a (upTo n a))

/-- Remainders after a greedy `[class]+`, longest match first. -/
def runPlus (p : Nat → Bool) : JSString → List JSString
  | [] => []
  | c :: t => if p c then runPlus p t ++ [t] else []

/-- Backtracking matcher: the remainders of `s` after each way of matching a
prefix of `s`, most preferred first. -/
def run : Regex → JSString → List JSString
  | empty, s => [s]
  | cls _, [] => []
  | cls p, c :: t => if p c then [t] else []
  | seq a b, s => (run a s).flatMap (fun t => run b t)
  | alt a b, s => run a s ++ run b s
  | opt a, s => run a s ++ [s]
  | plus p, s => runPlus p s

/-- The method `RegExp.prototype.test` for a pattern `/^r$/` without flags:
some match starting at index 0 ends at the end of the input. -/
def testWhole (r : Regex) (s : JSString) : Bool := (run r s).contains []

/-- The language of a pattern. -/
def Lang : Regex → JSString → Prop
  | empty, u => u = []
  | cls p, u => ∃ c, u = [c] ∧ p c = true
  | seq a b, u => ∃ v w, u = v ++ w ∧ Lang a v ∧ Lang b w
  | alt a b, u => Lang a u ∨ Lang b u
  | opt a, u => Lang a u ∨ u = []
  | plus p, u => u ≠ [] ∧ ∀ c ∈ u, p c = true

end Regex

/-! ## scripts.js: validators -/

/-- The pattern `(?:25[0-5]|2[0-4][0-9]|[01]?[0-9][0-9]?)` of `validateIP`. -/
def ipOctetRegex : Regex :=
  .alt (.seq (.chr 0x32) (.seq (.chr 0x35) (.range 0x30 0x35)))
    (.alt (.seq (.chr 0x32) (.seq (.range 0x30 0x34) (.range 0x30 0x39)))
      (.seq (.opt (.range 0x30 0x31)) (.seq (.range 0x30 0x39) (.opt (.range 0x30 0x39)))))

/-- The body of `ipRegex` in `validateIP`, between `^` and `$`:
`(?:octet\.){3}octet`. -/
def ipRegex : Regex :=
  .seq (.times 3 (.seq ipOctetRegex (.chr 0x2E))) ipOctetRegex

/-- The function `validateIP(ip)` of scripts.js. -/
def validateIP (ip : JSString) : Bool := ipRegex.testWhole ip

/-- Character class `[^\s@]`. -/
def notSpaceAt (c : Nat) : Bool := !(isWhiteSpace c || c == 0x40)

/-- The body of `emailRegex` in `validateEmail`, between `^` and `$`:
`[^\s@]+@[^\s@]+\.[^\s@]+`. -/
def emailRegex : Regex :=
  .seq (.plus notSpaceAt) (.seq (.chr 0x40)
    (.seq (.plus notSpaceAt) (.seq (.chr 0x2E) (.plus notSpaceAt))))

/-- The function `validateEmail(email)` of scripts.js. -/
def validateEmail (email : JSString) : Bool := emailRegex.testWhole email

/-! ## scripts.js: sanitizeInput -/

/-- The HTML fragment serialisation of a Text node inside a `div`: the
"escaping a string" steps outside attribute mode replace `&`, U+00A0, `<` and
`>`; every other code unit, `"` included, is emitted as it is. -/
def escapeText : JSString → JSString
  | [] => []
  | c :: t =>
    (if c = 0x26 then lit "&amp;"
     else if c = 0xA0 then lit "&nbsp;"
     else if c = 0x3C then lit "&lt;"
     else if c = 0x3E then lit "&gt;"
     else [c]) ++ escapeText t

/-- The function `sanitizeInput(str)` of scripts.js: `str` is stored as the
text content of a fresh `div` and the `innerHTML` of that `div` is returned. -/
def sanitizeInput (str : JSString) : JSString := escapeText str

/-! ## Observable actions -/

/-- The answer of `fetch`: the fields of the response the handlers read. -/
structure Response where
  ok : Bool
  redirected : Bool
  url : JSString
  deriving DecidableEq

/-- How the promise returned by `fetch` settles, if it does. -/
inductive FetchOutcome where
  | pending : FetchOutcome
  | resolved (response : Response) : FetchOutcome
  | rejected : FetchOutcome
  deriving DecidableEq

/-- A file chosen in a file input: the fields `uploadConfig` reads. -/
structure File where
  name : JSString
  size : Nat
  deriving DecidableEq

/-- Actions a handler performs that are visible outside it, in program order. -/
inductive Effect where
  /-- The call `confirm(message)`. -/
  | confirm (message : JSString) : Effect
  /-- The call `showToast(message, type)`. -/
  | showToast (message type : JSString) : Effect
  /-- The call `showUploadStatus(message, type)`. -/
  | showUploadStatus (message type : JSString) : Effect
  /-- The call `fetch(url, { method })`. -/
  | fetch (url method : JSString) : Effect
  /-- A `setTimeout` whose callback assigns `window.location.href`. -/
  | scheduleRedirect (href : JSString) (ms : Nat) : Effect
  /-- The call `console.error(label, error)`. -/
  | consoleError (label : JSString) : Effect
  /-- The visual result of `validateField` on the field at a position of the
  form: the `valid`/`error` class and the message given to `showFieldError`. -/
  | markField (index : Nat) (isValid : Bool) (message : JSString) : Effect
  deriving DecidableEq

/-- Whether an action is a `fetch`. -/
def Effect.isFetch : Effect → Bool
  | .fetch _ _ => true
  | _ => false

/-- Whether an action is a toast. -/
def Effect.isToast : Effect → Bool
  | .showToast _ _ => true
  | _ => false

/-- Whether an action schedules a redirect. -/
def Effect.isRedirect : Effect → Bool
  | .scheduleRedirect _ _ => true
  | _ => false

/-! ## config_manager.js: uploadConfig, validation part -/

/-- The function `uploadConfig()` of config_manager.js up to the `fetch` call.
`configType` is the value of the `configType` select, `configFile` is
`files[0]` of the file input (`none` when no file is chosen).  The method
`String.prototype.toLowerCase` is supplied as a parameter. -/
def uploadConfig (toLowerCase : JSString → JSString) (configType : JSString)
    (configFile : Option File) : List Effect :=
  if configType.isEmpty then
    [.showUploadStatus (lit "⚠️ Selecione o tipo de configuração") (lit "warning")]
  else
    match configFile with
    | none => [.showUploadStatus (lit "⚠️ Selecione um arquivo JSON") (lit "warning")]
    | some file =>
      if !endsWith (toLowerCase file.name) (lit ".json") then
        [.showUploadStatus (lit "❌ Apenas arquivos .json são aceitos") (lit "error")]
      else if file.size > 10240 then
        [.showUploadStatus (lit "❌ Arquivo muito grande. Tamanho máximo: 10KB") (lit "error")]
      else
        [.showUploadStatus (lit "⏳ Enviando configuração...") (lit "info"),
         .fetch (lit "/api/config/upload") (lit "POST")]

/-- Lower-casing of the ASCII letters, every other code unit kept: what
`String.prototype.toLowerCase` does on ASCII-only strings.  Used to evaluate
`uploadConfig` on concrete file names. -/
def asciiToLowerCase (s : JSString) : JSString :=
  s.map (fun c => if 0x41 ≤ c ∧ c ≤ 0x5A then c + 0x20 else c)

/-! ## scripts.js: doFactoryReset -/

/-- The constant `AppConfig.MESSAGES.CONFIRM_FACTORY_RESET`. -/
def CONFIRM_FACTORY_RESET : JSString :=
  lit "Tem certeza que deseja realizar o reset de fabrica?\n\nEsta acao apagara todas as configuracoes!"

/-- The constant `AppConfig.MESSAGES.FACTORY_RESET_SUCCESS`. -/
def FACTORY_RESET_SUCCESS : JSString := lit "Reset iniciado! O dispositivo sera reiniciado."

/-- The function `doFactoryReset()` of scripts.js.  `accepted` is the answer of
the `confirm` dialog and `outcome` the way the `fetch` promise settles. -/
def doFactoryReset (accepted : Bool) (outcome : FetchOutcome) : List Effect :=
  .confirm CONFIRM_FACTORY_RESET ::
  (if accepted then
    [.showToast (lit "Executando reset de fábrica...") (lit "warning"),
     .fetch (lit "/factory_reset") (lit "POST")] ++
    (match outcome with
     | .pending => []
     | .resolved response =>
       if response.ok then
         [.showToast FACTORY_RESET_SUCCESS (lit "success"),
          .scheduleRedirect (lit "/") 3000]
       else
         [.consoleError (lit "Erro no reset de fábrica:"),
          .showToast (lit "Erro ao executar reset. Tente novamente.") (lit "error")]
     | .rejected =>
       [.consoleError (lit "Erro no reset de fábrica:"),
        .showToast (lit "Erro ao executar reset. Tente novamente.") (lit "error")])
  else [])

/-! ## scripts.js: field and form validation -/

/-- A form control as `validateField` reads it: `value`, `type` and `name` are
the properties of the element, `required` is `hasAttribute('required')`, `min`
and `max` are `getAttribute('min')` and `getAttribute('max')` (`none` for
`null`). -/
structure Field where
  value : JSString
  type : JSString
  name : JSString
  required : Bool
  min : Option JSString
  max : Option JSString
  deriving DecidableEq

/-- Truthiness of the result of `getAttribute`: `null` and the empty string are
falsy. -/
def attrTruthy : Option JSString → Bool
  | some (_ :: _) => true
  | _ => false

/-- The string an attribute contributes to a template literal or to
`parseFloat`; only read when the attribute is truthy. -/
def attrString : Option JSString → JSString
  | some s => s
  | none => lit "null"

/-- The `switch (type)` of `validateField`, run on a non-empty trimmed value:
the pair `(isValid, errorMessage)` after it. -/
def validateByType (parseFloat : JSString → JSNumber) (field : Field) (value : JSString) :
    Bool × JSString :=
  if field.type = lit "email" then
    if !validateEmail value then (false, lit "Email inválido") else (true, [])
  else if field.type = lit "number" then
    let num := parseFloat value
    if num.isNaN then (false, lit "Valor numérico inválido")
    else if attrTruthy field.min && num.lt (parseFloat (attrString field.min)) then
      (false, lit "Valor mínimo: " ++ attrString field.min)
    else if attrTruthy field.max && num.gt (parseFloat (attrString field.max)) then
      (false, lit "Valor máximo: " ++ attrString field.max)
    else (true, [])
  else (true, [])

/-- The function `validateField(field)` of scripts.js: the returned `isValid`
and the `errorMessage` handed to `showFieldError` (the `valid`/`error` class
follows `isValid`).  The global `parseFloat` is supplied as a parameter. -/
def validateField (parseFloat : JSString → JSNumber) (field : Field) : Bool × JSString :=
  let value := trim field.value
  if field.required && value.isEmpty then (false, lit "Este campo é obrigatório")
  else if !value.isEmpty then
    let r1 := validateByType parseFloat field value
    let r2 := if field.name = lit "ip" ∧ validateIP value = false then
        (false, lit "Endereço IP inválido") else r1
    if field.name = lit "port" ∧ validatePort (parseInt value) = false then
      (false, lit "Porta deve estar entre 1 e 65535") else r2
  else (true, [])

/-- The submit control of a form as `saveConfig` touches it. -/
structure Button where
  disabled : Bool
  textContent : JSString
  /-- The entry `dataset.originalText`, when set. -/
  originalText : Option JSString
  deriving DecidableEq

/-- A form: the controls matched by `'input, select, textarea'` in document
order, and the first `button[type="submit"], input[type="submit"]`, if any. -/
structure Form where
  fields : List Field
  submitButton : Option Button
  deriving DecidableEq

/-- The constant `AppConfig.MESSAGES.VALIDATION_ERROR`. -/
def VALIDATION_ERROR : JSString := lit "Por favor, corrija os campos marcados em vermelho."

/-- The constant `AppConfig.MESSAGES.SAVE_SUCCESS`. -/
def SAVE_SUCCESS : JSString := lit "Configurações salvas com sucesso!"

/-- The constant `AppConfig.MESSAGES.SAVE_ERROR`. -/
def SAVE_ERROR : JSString := lit "Erro ao salvar configurações. Tente novamente."

/-- The `forEach` of `validateForm` from position `index` on: every control is
validated and marked; the flag goes to `false` at a failing control and is
never set back. -/
def validateFields (parseFloat : JSString → JSNumber) :
    Nat → List Field → Bool → Bool × List Effect
  | _, [], isFormValid => (isFormValid, [])
  | index, input :: rest, isFormValid =>
    let r := validateField parseFloat input
    let tail := validateFields parseFloat (index + 1) rest (if !r.1 then false else isFormValid)
    (tail.1, .markField index r.1 r.2 :: tail.2)

/-- The function `validateForm(form)` of scripts.js. -/
def validateForm (parseFloat : JSString → JSNumber) (form : Form) : Bool × List Effect :=
  let r := validateFields parseFloat 0 form.fields true
  if !r.1 then (r.1, r.2 ++ [.showToast VALIDATION_ERROR (lit "error")]) else (r.1, r.2)

/-- What `saveConfig` leaves behind: the actions performed and the submit
control of the form afterwards. -/
structure SaveResult where
  effects : List Effect
  submitButton : Option Button
  deriving DecidableEq

/-- The `finally` handler of `saveConfig` on the submit control. -/
def restoreButton : Option Button → Option Button
  | none => none
  | some b =>
    some { b with
      disabled := false
      textContent := if attrTruthy b.originalText then attrString b.originalText
        else lit "Salvar" }

/-- The function `saveConfig(form, endpoint)` of scripts.js; `outcome` is the
way the `fetch` promise settles. -/
def saveConfig (parseFloat : JSString → JSNumber) (form : Form) (endpoint : JSString)
    (outcome : FetchOutcome) : SaveResult :=
  let v := validateForm parseFloat form
  if !v.1 then { effects := v.2, submitButton := form.submitButton }
  else
    let busy : Option Button :=
      form.submitButton.map (fun b => { b with disabled := true, textContent := lit "Salvando..." })
    let sent : List Effect :=
      v.2 ++ [.showToast (lit "Salvando configurações...") (lit "info"),
              .fetch endpoint (lit "POST")]
    match outcome with
    | .pending => { effects := sent, submitButton := busy }
    | .resolved response =>
      if response.ok then
        { effects := sent ++ .showToast SAVE_SUCCESS (lit "success") ::
            (if response.redirected then [.scheduleRedirect response.url 1500] else [])
          submitButton := restoreButton busy }
      else
        { effects := sent ++ [.consoleError (lit "Erro ao salvar:"),
            .showToast SAVE_ERROR (lit "error")]
          submitButton := restoreButton busy }
    | .rejected =>
      { effects := sent ++ [.consoleError (lit "Erro ao salvar:"),
          .showToast SAVE_ERROR (lit "error")]
        submitButton := restoreButton busy }

/-! ## ap-config.js -/

/-- The method `String.prototype.split` with a one-code-unit separator. -/
def splitOn (sep : Nat) : JSString → List JSString
  | [] => [[]]
  | c :: t =>
    if c = sep then [] :: splitOn sep t
    else
      match splitOn sep t with
      | [] => [[c]]
      | h :: r => (c :: h) :: r

namespace APConfig

/-- One call `setInputValidation(input, isValid, message)`; the input is named
by its element id. -/
structure Validation where
  input : JSString
  isValid : Bool
  message : JSString
  deriving DecidableEq

/-- The function `validateSSID(input)` of ap-config.js, on the value of the
input: the returned flag and the call to `setInputValidation`. -/
def validateSSID (inputValue : JSString) : Bool × Validation :=
  let value := trim inputValue
  let isValid := decide (value.length ≥ 1) && decide (value.length ≤ 32)
  (isValid, ⟨lit "ap-ssid", isValid,
    if isValid then [] else lit "SSID deve ter entre 1 e 32 caracteres"⟩)

/-- The function `validatePassword(input)` of ap-config.js. -/
def validatePassword (inputValue : JSString) : Bool × Validation :=
  let value := inputValue
  let isValid := decide (value.length ≥ 8) && decide (value.length ≤ 63)
  (isValid, ⟨lit "ap-password", isValid,
    if isValid then [] else lit "Senha deve ter entre 8 e 63 caracteres"⟩)

/-- The pattern `\d{1,3}`: one digit, then greedily up to two more. -/
def digits13 : Regex := .seq (.cls isDigit) (.upTo 2 (.cls isDigit))

/-- The body of `ipRegex` in `validateIP` of ap-config.js, between `^` and `$`:
`(\d{1,3}\.){3}\d{1,3}`. -/
def ipRegex : Regex := .seq (.times 3 (.seq digits13 (.chr 0x2E))) digits13

/-- The function `validateIP(input)` of ap-config.js. -/
def validateIP (inputValue : JSString) : Bool × Validation :=
  let value := trim inputValue
  let matched := ipRegex.testWhole value
  let isValid :=
    if matched then
      (splitOn 0x2E value).all (fun octet =>
        let num := parseInt octet
        num.ge (.finite 0) && num.le (.finite 255))
    else matched
  (isValid, ⟨lit "ap-ip", isValid,
    if isValid then [] else lit "IP deve estar no formato válido (ex: 192.168.4.1)"⟩)

/-- The function `validateForm()` of ap-config.js, on the values of the inputs
`ap-ssid`, `ap-password` and `ap-ip`: the returned flag and the calls to
`setInputValidation`, in order. -/
def validateForm (ssid password ip : JSString) : Bool × List Validation :=
  let ssidValid := validateSSID ssid
  let passwordValid := validatePassword password
  let ipValid := validateIP ip
  (ssidValid.1 && passwordValid.1 && ipValid.1, [ssidValid.2, passwordValid.2, ipValid.2])

end APConfig

/-! ## wifi-status.js: the status poller

The timers and the responses in flight are kept in one agenda ordered by time
(milliseconds since the page was loaded); a task fires when it reaches the
head of the agenda.  The page elements the handlers write to are assumed
present, and only what bears on polling is kept of `updateStatusDisplay`. -/

/-- A pending task of the event loop. -/
inductive Task where
  /-- The callback of `setInterval(function() { checkStatus(); }, 3000)` for
  the interval with the given id. -/
  | tick (id : Nat) : Task
  /-- The callback of `setTimeout(function() { stopStatusChecking(); }, 30000)`. -/
  | timeout : Task
  /-- The arrival of a parsed response of `/wifi-status-data` with the given
  `data.status`. -/
  | arrive (status : JSString) : Task
  deriving DecidableEq

/-- The server as the page sees it: what the request with a given number
(0 for the first) is answered, as a delay in milliseconds and the `status`
of the answer, or `none` when the request fails. -/
abbrev Server := Nat → Option (Nat × JSString)

/-- State of the page script. -/
structure Poller where
  /-- The variable `statusCheckInterval`: an interval id, or `null`. -/
  statusCheckInterval : Option Nat
  /-- The id the next `setInterval` returns. -/
  nextId : Nat
  /-- Pending tasks with their due times, earliest first. -/
  agenda : List (Nat × Task)
  /-- Times at which `checkStatus` issued its `fetch`, oldest first. -/
  requests : List Nat
  deriving DecidableEq

/-- Queue a task: after every task due at the same time or earlier. -/
def schedule (due : Nat) (task : Task) : List (Nat × Task) → List (Nat × Task)
  | [] => [(due, task)]
  | (t, x) :: rest =>
    if t ≤ due then (t, x) :: schedule due task rest else (due, task) :: (t, x) :: rest

/-- The call `clearInterval(id)`: the interval fires no more. -/
def clearInterval (id : Nat) (agenda : List (Nat × Task)) : List (Nat × Task) :=
  agenda.filter (fun e => e.2 ≠ Task.tick id)

/-- The function `startStatusChecking()` of wifi-status.js, called at `now`. -/
def startStatusChecking (now : Nat) (s : Poller) : Poller :=
  match s.statusCheckInterval with
  | some _ => s
  | none =>
    { s with
      statusCheckInterval := some s.nextId
      nextId := s.nextId + 1
      agenda := schedule (now + 30000) Task.timeout
        (schedule (now + 3000) (Task.tick s.nextId) s.agenda) }

/-- The function `stopStatusChecking()` of wifi-status.js. -/
def stopStatusChecking (s : Poller) : Poller :=
  match s.statusCheckInterval with
  | some id => { s with agenda := clearInterval id s.agenda, statusCheckInterval := none }
  | none => s

/-- The function `checkStatus()` of wifi-status.js, called at `now`: the
request is issued and its answer, if any, is queued. -/
def checkStatus (server : Server) (now : Nat) (s : Poller) : Poller :=
  { s with
    requests := s.requests ++ [now]
    agenda :=
      match server s.requests.length with
      | some (delay, status) => schedule (now + delay) (Task.arrive status) s.agenda
      | none => s.agenda }

/-- The function `updateStatusDisplay(data)` of wifi-status.js, called at `now`
with `data.status`. -/
def updateStatusDisplay (now : Nat) (status : JSString) (s : Poller) : Poller :=
  if status = lit "Conectado" then stopStatusChecking s
  else if status = lit "Conectando" then
    (if s.statusCheckInterval.isNone then startStatusChecking now s else s)
  else if status = lit "Erro" ∨ status = lit "Falha" then stopStatusChecking s
  else s

/-- Run the task at the head of the agenda; `none` when nothing is pending. -/
def stepPoller (server : Server) (s : Poller) : Option Poller :=
  match s.agenda with
  | [] => none
  | (now, task) :: rest =>
    let s1 := { s with agenda := rest }
    match task with
    | Task.tick id =>
      some (checkStatus server now { s1 with agenda := schedule (now + 3000) (Task.tick id) rest })
    | Task.timeout => some (stopStatusChecking s1)
    | Task.arrive status => some (updateStatusDisplay now status s1)

/-- Run up to `n` tasks. -/
def runPoller (server : Server) : Nat → Poller → Poller
  | 0, s => s
  | n + 1, s =>
    match stepPoller server s with
    | some s1 => runPoller server n s1
    | none => s

/-- The page right after `startStatusChecking()` is called at load time. -/
def pollerStarted : Poller :=
  startStatusChecking 0
    { statusCheckInterval := none, nextId := 0, agenda := [], requests := [] }

/-- A device that stays in `Conectando` and answers every request after 4 s. -/
def slowConnectingServer : Server := fun _ => some (4000, lit "Conectando")

/-! ## Reading of the claims about dotted quads -/

/-- Decimal value of a run of digit code units. -/
def decValue (u : JSString) : Nat := u.foldl (fun acc c => 10 * acc + (c - 0x30)) 0

/-- A group of an address as the specification words it: 1 to 3 ASCII decimal
digits whose decimal value is between 0 and 255. -/
def IsOctet (u : JSString) : Prop :=
  1 ≤ u.length ∧ u.length ≤ 3 ∧ (∀ c ∈ u, isDigit c = true) ∧ decValue u ≤ 255

/-- Exactly four groups separated by single `.` code units, nothing else. -/
def IsDottedQuad (s : JSString) : Prop :=
  ∃ a b c d : JSString, s = a ++ 0x2E :: (b ++ 0x2E :: (c ++ 0x2E :: d)) ∧
    IsOctet a ∧ IsOctet b ∧ IsOctet c ∧ IsOctet d

/-! ## Reading of the claim about e-mail addresses -/

/-- The shape the specification gives for an accepted address: no white space,
exactly one `@`, something before it, and after it a `.` that is neither the
first nor the last code unit of that part. -/
def EmailShape (e : JSString) : Prop :=
  (∀ c ∈ e, isWhiteSpace c = false) ∧ e.count 0x40 = 1 ∧
  ∃ l d : JSString, e = l ++ 0x40 :: d ∧ l ≠ [] ∧
    ∃ x y : JSString, d = x ++ 0x2E :: y ∧ x ≠ [] ∧ y ≠ []

/-! ## Reading of the claim about port fields -/

/-- A decimal numeral of an integer between 1 and 65535: a non-empty run of
ASCII decimal digits whose value is in that range. -/
def IsPortNumeral (v : JSString) : Prop :=
  v ≠ [] ∧ (∀ c ∈ v, isDigit c = true) ∧ 1 ≤ decValue v ∧ decValue v ≤ 65535

/-- The integer that `parseInt` reads from a string, before its conversion to
a Number: after leading white space and an optional sign, the longest run of
digits (hexadecimal after a `0x`/`0X` prefix, decimal otherwise), whatever
follows being ignored; `none` when there is no digit. -/
def leadingInteger (s : JSString) : Option ℤ :=
  let signed := stripSign (trimStart s)
  let body := stripHexPrefix signed.2
  let ds := leadingDigits body.1 body.2
  if ds = [] then none
  else
    let n := ds.foldl (fun acc d => body.1 * acc + d) 0
    some (if signed.1 then -(n : ℤ) else (n : ℤ))

/-- A text control named `port` holding `80abc`. -/
def portFieldTrailingText : Field :=
  { value := lit "80abc", type := lit "text", name := lit "port", required := false,
    min := none, max := none }

/-! ## confirmation.js: the countdown before the automatic redirect -/

/-- The Number value for an integer (rounded as `JSNumber.ofNat` rounds). -/
def JSNumber.ofInt (z : ℤ) : JSNumber :=
  if z < 0 then (JSNumber.ofNat z.natAbs).neg else JSNumber.ofNat z.toNat

/-- The value left in `x` by `x--`.  On an integer the difference is rounded to
the nearest Number; `NaN` and the infinities are unchanged.  The counter of
confirmation.js comes from `parseInt` and is never a finite non-integer; on
such a value the difference is kept exact. -/
def JSNumber.decrement : JSNumber → JSNumber
  | .finite q => if q.isInt then JSNumber.ofInt (q.num - 1) else .finite (q - 1)
  | x => x

/-- What the `DOMContentLoaded` handler of confirmation.js reads of the page. -/
structure ConfirmationPage where
  /-- The `textContent` of the element `countdown`; `none` when it is missing. -/
  countdownText : Option JSString
  /-- Whether the element `auto-redirect` exists with a `style.display` other
  than `none`. -/
  redirectShown : Bool
  /-- The `href` of the first `.btn-primary`; `none` when there is no such
  element or it has no `href`. -/
  returnHref : Option JSString
  deriving DecidableEq

/-- State of the countdown script. -/
structure Countdown where
  /-- The variable `countdown` (`NaN` while it does not exist). -/
  countdown : JSNumber
  /-- The `textContent` of the countdown element. -/
  text : Option JSString
  /-- Whether the interval is running. -/
  intervalActive : Bool
  /-- The values assigned to `window.location.href`, oldest first. -/
  redirects : List JSString
  deriving DecidableEq

/-- The `DOMContentLoaded` handler of confirmation.js. -/
def onConfirmationLoaded (page : ConfirmationPage) : Countdown :=
  match page.countdownText with
  | some text =>
    if page.redirectShown then
      let countdown := parseInt text
      { countdown := countdown, text := some text,
        intervalActive := countdown.gt (.finite 0), redirects := [] }
    else { countdown := .nan, text := some text, intervalActive := false, redirects := [] }
  | none => { countdown := .nan, text := none, intervalActive := false, redirects := [] }

/-- One firing of the interval callback; a cleared interval fires no more.
The conversion of a Number to a string, done by the assignment to
`textContent`, is supplied as a parameter. -/
def countdownTick (numberToString : JSNumber → JSString) (page : ConfirmationPage)
    (s : Countdown) : Countdown :=
  if s.intervalActive then
    let countdown := s.countdown.decrement
    if countdown.le (.finite 0) then
      { countdown := countdown, text := some (numberToString countdown),
        intervalActive := false,
        redirects := s.redirects ++
          [if attrTruthy page.returnHref then attrString page.returnHref else lit "/"] }
    else
      { countdown := countdown, text := some (numberToString countdown),
        intervalActive := true, redirects := s.redirects }
  else s

/-- The state after `k` seconds. -/
def countdownAfter (numberToString : JSNumber → JSString) (page : ConfirmationPage) :
    Nat → Countdown
  | 0 => onConfirmationLoaded page
  | k + 1 => countdownTick numberToString page (countdownAfter numberToString page k)

/-- A confirmation page whose countdown holds 9007199254740994 (2^53 + 2). -/
def hugeCountdownPage : ConfirmationPage :=
  { countdownText := some (lit "9007199254740994"), redirectShown := true, returnHref := none }

/-! ## wifi-status.js: reachable states of the poller -/

/-- The page when the script is loaded: `statusCheckInterval` is `null` and
nothing is pending. -/
def pollerLoaded : Poller :=
  { statusCheckInterval := none, nextId := 0, agenda := [], requests := [] }

/-- The ids of the polling intervals that are active: those with a pending
firing in the agenda. -/
def activeIntervals : List (Nat × Task) → List Nat
  | [] => []
  | (_, Task.tick id) :: rest => id :: activeIntervals rest
  | (_, _) :: rest => activeIntervals rest

/-- States reachable from the loaded page through calls of
`startStatusChecking`, `stopStatusChecking` and `updateStatusDisplay` at any
time and with any status, and through the firing of the pending tasks (the
interval callback, the 30-second timeout, the arrival of a response) against
any server. -/
inductive PollerReachable : Poller → Prop where
  | loaded : PollerReachable pollerLoaded
  | start (now : Nat) {s : Poller} :
      PollerReachable s → PollerReachable (startStatusChecking now s)
  | stop {s : Poller} : PollerReachable s → PollerReachable (stopStatusChecking s)
  | update (now : Nat) (status : JSString) {s : Poller} :
      PollerReachable s → PollerReachable (updateStatusDisplay now status s)
  | fire (server : Server) {s t : Poller} :
      PollerReachable s → stepPoller server s = some t → PollerReachable t

/-- The guard the claim describes: the active polling intervals are exactly
the one named by `statusCheckInterval`, or none when it is `null`. -/
def SinglePoller (s : Poller) : Prop :=
  activeIntervals s.agenda = s.statusCheckInterval.toList

/-! ## config_manager.js: the status shown after a successful upload -/

/-- The method `String.prototype.includes` (one argument). -/
def includes : JSString → JSString → Bool
  | [], sub => sub.isPrefixOf []
  | c :: t, sub => sub.isPrefixOf (c :: t) || includes t sub

/-- Character class `[^'\s]`. -/
def notQuoteSpace (c : Nat) : Bool := !(c == 0x27 || isWhiteSpace c)

/-- The pattern matching a literal string, code unit by code unit. -/
def Regex.str : JSString → Regex
  | [] => Regex.empty
  | c :: t => Regex.seq (Regex.chr c) (Regex.str t)

/-- The text captured by the group of a pattern `pre(grp)` in the most
preferred match starting at the beginning of `s`, if there is a match. -/
def Regex.captureAt (pre grp : Regex) (s : JSString) : Option JSString :=
  (Regex.run pre s).findSome? (fun t =>
    (Regex.run grp t).head?.map (fun u => t.take (t.length - u.length)))

/-- Element 1 of the result of `String.prototype.match` for a pattern
`/pre(grp)/` without flags: the match at the leftmost position that has one;
`none` when the result is `null`. -/
def Regex.matchGroup (pre grp : Regex) : JSString → Option JSString
  | [] => Regex.captureAt pre grp []
  | c :: t => (Regex.captureAt pre grp (c :: t)).orElse (fun _ => Regex.matchGroup pre grp t)

/-- The literal part `\/data\/config\/` of the pattern of `uploadConfig`. -/
def configPathRegex : Regex := Regex.str (lit "/data/config/")

/-- The group `([^'\s]+)` of the pattern of `uploadConfig`. -/
def configNameRegex : Regex := Regex.plus notQuoteSpace

/-- The message `uploadConfig` shows for a response with `data.success`, from
`data.message`. -/
def uploadSuccessMessage (message : JSString) : JSString :=
  if includes message (lit "/data/config/") then
    match Regex.matchGroup configPathRegex configNameRegex message with
    | some fileName => lit "✅ Arquivo salvo com sucesso em /data/config/" ++ fileName
    | none => message
  else message

/-- The call of `showUploadStatus` made by the handler of the parsed response of
`uploadConfig`, from `data.success`, `data.message` and `data.error`. -/
def uploadConfigResponse (success : Bool) (message error : JSString) : Effect :=
  if success then .showUploadStatus (uploadSuccessMessage message) (lit "success")
  else .showUploadStatus (lit "❌ " ++ error) (lit "error")

/-! ## Reading of the claim about the saved file name -/

/-- A code unit that is neither an apostrophe nor white space. -/
def IsNameChar (c : Nat) : Prop := c ≠ 0x27 ∧ isWhiteSpace c = false

/-- The message has `/data/config/` right after `pre`, immediately followed by
a code unit that is neither an apostrophe nor white space. -/
def NamedPathAt (message pre : JSString) : Prop :=
  ∃ (c : Nat) (rest : JSString),
    message = pre ++ (lit "/data/config/" ++ c :: rest) ∧ IsNameChar c

/-! ## Theorems -/

/-! ### The matcher computes the language -/

theorem Regex.mem_runPlus (p : Nat → Bool) (s t : JSString) :
    t ∈ Regex.runPlus p s ↔ ∃ u, s = u ++ t ∧ u ≠ [] ∧ ∀ c ∈ u, p c = true := by
  induction s with
  | nil =>
    simp only [Regex.runPlus, List.not_mem_nil, false_iff]
    rintro ⟨u, hu, hne, -⟩
    cases u with
    | nil => exact hne rfl
    | cons a u => simp at hu
  | cons c s ih =>
    simp only [Regex.runPlus]
    by_cases hc : p c = true
    · simp only [hc, if_true, List.mem_append, List.mem_singleton, ih]
      constructor
      · rintro (⟨u, rfl, -, hu⟩ | rfl)
        · refine ⟨c :: u, rfl, by simp, ?_⟩
          intro x hx
          rcases List.mem_cons.1 hx with rfl | hx
          · exact hc
          · exact hu x hx
        · exact ⟨[c], rfl, by simp, by simpa using hc⟩
      · rintro ⟨u, hu, hne, hall⟩
        cases u with
        | nil => exact absurd rfl hne
        | cons a u =>
          simp only [List.cons_append, List.cons.injEq] at hu
          obtain ⟨rfl, rfl⟩ := hu
          cases u with
          | nil => right; rfl
          | cons b u =>
            left
            exact ⟨b :: u, rfl, by simp, fun x hx => hall x (List.mem_cons_of_mem _ hx)⟩
    · simp only [hc, Bool.false_eq_true, if_false, List.not_mem_nil, false_iff]
      rintro ⟨u, hu, hne, hall⟩
      cases u with
      | nil => exact hne rfl
      | cons a u =>
        simp only [List.cons_append, List.cons.injEq] at hu
        obtain ⟨rfl, -⟩ := hu
        exact hc (hall _ (List.mem_cons_self _ _))

theorem Regex.mem_run (r : Regex) :
    ∀ s t : JSString, t ∈ Regex.run r s ↔ ∃ u, s = u ++ t ∧ Regex.Lang r u := by
  induction r with
  | empty =>
    intro s t
    simp only [Regex.run, Regex.Lang, List.mem_singleton]
    constructor
    · rintro rfl; exact ⟨[], rfl, rfl⟩
    · rintro ⟨u, rfl, rfl⟩; rfl
  | cls p =>
    intro s t
    cases s with
    | nil =>
      simp only [Regex.run, Regex.Lang, List.not_mem_nil, false_iff]
      rintro ⟨u, hu, c, rfl, -⟩
      simp at hu
    | cons c s =>
      simp only [Regex.run, Regex.Lang]
      constructor
      · intro h
        by_cases hc : p c = true
        · rw [if_pos hc, List.mem_singleton] at h
          subst h
          exact ⟨[c], rfl, c, rfl, hc⟩
        · rw [if_neg hc] at h
          exact absurd h (List.not_mem_nil _)
      · rintro ⟨u, hu, d, rfl, hd⟩
        simp only [List.singleton_append, List.cons.injEq] at hu
        obtain ⟨rfl, rfl⟩ := hu
        rw [if_pos hd]
        exact List.mem_singleton.2 rfl
  | seq a b iha ihb =>
    intro s t
    simp only [Regex.run, Regex.Lang, List.mem_flatMap]
    constructor
    · rintro ⟨m, hm, ht⟩
      obtain ⟨v, rfl, hv⟩ := (iha s m).1 hm
      obtain ⟨w, rfl, hw⟩ := (ihb m t).1 ht
      exact ⟨v ++ w, by simp, v, w, rfl, hv, hw⟩
    · rintro ⟨u, rfl, v, w, rfl, hv, hw⟩
      refine ⟨w ++ t, (iha _ _).2 ⟨v, by simp, hv⟩, (ihb _ _).2 ⟨w, rfl, hw⟩⟩
  | alt a b iha ihb =>
    intro s t
    simp only [Regex.run, Regex.Lang, List.mem_append, iha, ihb]
    constructor
    · rintro (⟨u, hu, h⟩ | ⟨u, hu, h⟩)
      · exact ⟨u, hu, Or.inl h⟩
      · exact ⟨u, hu, Or.inr h⟩
    · rintro ⟨u, hu, h | h⟩
      · exact Or.inl ⟨u, hu, h⟩
      · exact Or.inr ⟨u, hu, h⟩
  | opt a iha =>
    intro s t
    simp only [Regex.run, Regex.Lang, List.mem_append, List.mem_singleton, iha]
    constructor
    · rintro (⟨u, hu, h⟩ | rfl)
      · exact ⟨u, hu, Or.inl h⟩
      · exact ⟨[], rfl, Or.inr rfl⟩
    · rintro ⟨u, hu, h | rfl⟩
      · exact Or.inl ⟨u, hu, h⟩
      · exact Or.inr (by simpa using hu.symm)
  | plus p =>
    intro s t
    simp only [Regex.run, Regex.Lang]
    exact Regex.mem_runPlus p s t

theorem Regex.testWhole_iff (r : Regex) (s : JSString) :
    Regex.testWhole r s = true ↔ Regex.Lang r s := by
  have hmem : Regex.testWhole r s = true ↔ [] ∈ Regex.run r s := by
    unfold Regex.testWhole
    rw [List.contains_iff_exists_mem_beq]
    constructor
    · rintro ⟨a, ha, hb⟩
      rw [beq_iff_eq] at hb
      exact hb ▸ ha
    · intro h
      exact ⟨[], h, by simp⟩
  rw [hmem, Regex.mem_run]
  constructor
  · rintro ⟨u, hu, h⟩
    rw [List.append_nil] at hu
    exact hu ▸ h
  · intro h
    exact ⟨s, by simp, h⟩

/-! ### validateIP (scripts.js) -/

theorem Regex.lang_seq (a b : Regex) (u : JSString) :
    Regex.Lang (Regex.seq a b) u ↔ ∃ v w, u = v ++ w ∧ Regex.Lang a v ∧ Regex.Lang b w :=
  Iff.rfl

theorem Regex.lang_alt (a b : Regex) (u : JSString) :
    Regex.Lang (Regex.alt a b) u ↔ Regex.Lang a u ∨ Regex.Lang b u :=
  Iff.rfl

theorem Regex.lang_opt (a : Regex) (u : JSString) :
    Regex.Lang (Regex.opt a) u ↔ Regex.Lang a u ∨ u = [] :=
  Iff.rfl

theorem Regex.lang_empty (u : JSString) : Regex.Lang Regex.empty u ↔ u = [] :=
  Iff.rfl

theorem Regex.lang_plus (p : Nat → Bool) (u : JSString) :
    Regex.Lang (Regex.plus p) u ↔ u ≠ [] ∧ ∀ c ∈ u, p c = true :=
  Iff.rfl

theorem Regex.lang_chr (c : Nat) (u : JSString) : Regex.Lang (Regex.chr c) u ↔ u = [c] := by
  simp only [Regex.chr, Regex.Lang, beq_iff_eq]
  constructor
  · rintro ⟨d, rfl, rfl⟩; rfl
  · rintro rfl; exact ⟨c, rfl, rfl⟩

theorem Regex.lang_range (lo hi : Nat) (u : JSString) :
    Regex.Lang (Regex.range lo hi) u ↔ ∃ c, u = [c] ∧ lo ≤ c ∧ c ≤ hi := by
  simp only [Regex.range, Regex.Lang, Bool.and_eq_true, decide_eq_true_eq]

theorem ipOctetRegex_lang (u : JSString) : Regex.Lang ipOctetRegex u ↔ IsOctet u := by
  unfold ipOctetRegex
  simp only [Regex.lang_seq, Regex.lang_alt, Regex.lang_opt, Regex.lang_chr, Regex.lang_range]
  constructor
  · rintro (⟨v, w, rfl, rfl, x, y, rfl, rfl, c, rfl, h1, h2⟩ |
      ⟨v, w, rfl, rfl, x, y, rfl, ⟨b, rfl, hb1, hb2⟩, c, rfl, h1, h2⟩ |
      ⟨v, w, rfl, hv, x, y, rfl, ⟨b, rfl, hb1, hb2⟩, hy⟩)
    · refine ⟨by simp, by simp, ?_, ?_⟩
      · intro d hd
        simp only [List.singleton_append, List.mem_cons, List.mem_singleton,
          List.not_mem_nil, or_false] at hd
        rcases hd with rfl | rfl | rfl <;> simp [isDigit]
        omega
      · simp [decValue]; omega
    · refine ⟨by simp, by simp, ?_, ?_⟩
      · intro d hd
        simp only [List.singleton_append, List.mem_cons, List.mem_singleton,
          List.not_mem_nil, or_false] at hd
        rcases hd with rfl | rfl | rfl <;> simp [isDigit] <;> omega
      · simp [decValue]; omega
    · rcases hv with ⟨a, rfl, ha1, ha2⟩ | rfl <;> rcases hy with ⟨c, rfl, hc1, hc2⟩ | rfl
      · refine ⟨by simp, by simp, ?_, ?_⟩
        · intro d hd
          simp only [List.singleton_append, List.mem_cons, List.mem_singleton,
            List.not_mem_nil, or_false] at hd
          rcases hd with rfl | rfl | rfl <;> simp [isDigit] <;> omega
        · simp [decValue]; omega
      · refine ⟨by simp, by simp, ?_, ?_⟩
        · intro d hd
          simp only [List.singleton_append, List.append_nil, List.mem_cons, List.mem_singleton,
            List.not_mem_nil, or_false] at hd
          rcases hd with rfl | rfl <;> simp [isDigit] <;> omega
        · simp [decValue]; omega
      · refine ⟨by simp, by simp, ?_, ?_⟩
        · intro d hd
          simp only [List.nil_append, List.singleton_append, List.mem_cons, List.mem_singleton,
            List.not_mem_nil, or_false] at hd
          rcases hd with rfl | rfl <;> simp [isDigit] <;> omega
        · simp [decValue]; omega
      · refine ⟨by simp, by simp, ?_, ?_⟩
        · intro d hd
          simp only [List.nil_append, List.append_nil, List.mem_singleton] at hd
          subst hd
          simp [isDigit]; omega
        · simp [decValue]; omega
  · rintro ⟨hl1, hl3, hdig, hval⟩
    have dig : ∀ c ∈ u, 0x30 ≤ c ∧ c ≤ 0x39 := by
      intro c hc
      have := hdig c hc
      simpa [isDigit] using this
    match u, hl1, hl3, dig, hval with
    | [a], _, _, dig, _ =>
      obtain ⟨ha1, ha2⟩ := dig a (by simp)
      right; right
      exact ⟨[], [a], rfl, Or.inr rfl, [a], [], rfl, ⟨a, rfl, ha1, ha2⟩, Or.inr rfl⟩
    | [a, b], _, _, dig, _ =>
      obtain ⟨ha1, ha2⟩ := dig a (by simp)
      obtain ⟨hb1, hb2⟩ := dig b (by simp)
      right; right
      exact ⟨[], [a, b], rfl, Or.inr rfl, [a], [b], rfl, ⟨a, rfl, ha1, ha2⟩,
        Or.inl ⟨b, rfl, hb1, hb2⟩⟩
    | [a, b, c], _, _, dig, hval =>
      obtain ⟨ha1, ha2⟩ := dig a (by simp)
      obtain ⟨hb1, hb2⟩ := dig b (by simp)
      obtain ⟨hc1, hc2⟩ := dig c (by simp)
      simp only [decValue, List.foldl_cons, List.foldl_nil] at hval
      by_cases h01 : a ≤ 0x31
      · right; right
        exact ⟨[a], [b, c], rfl, Or.inl ⟨a, rfl, ha1, h01⟩, [b], [c], rfl,
          ⟨b, rfl, hb1, hb2⟩, Or.inl ⟨c, rfl, hc1, hc2⟩⟩
      · have ha : a = 0x32 := by omega
        subst ha
        by_cases h4 : b ≤ 0x34
        · right; left
          exact ⟨[0x32], [b, c], rfl, rfl, [b], [c], rfl, ⟨b, rfl, hb1, h4⟩, c, rfl, hc1, hc2⟩
        · have hb : b = 0x35 := by omega
          subst hb
          left
          exact ⟨[0x32], [0x35, c], rfl, rfl, [0x35], [c], rfl, rfl, c, rfl, hc1, by omega⟩

theorem ipRegex_lang (s : JSString) : Regex.Lang ipRegex s ↔ IsDottedQuad s := by
  unfold ipRegex
  simp only [Regex.times, Regex.lang_seq, Regex.lang_empty, Regex.lang_chr, ipOctetRegex_lang]
  constructor
  · rintro ⟨v, d, rfl, ⟨v1, v2, rfl, ⟨a, p1, rfl, ha, rfl⟩,
      w1, w2, rfl, ⟨b, p2, rfl, hb, rfl⟩, x1, x2, rfl, ⟨c, p3, rfl, hc, rfl⟩, rfl⟩, hd⟩
    exact ⟨a, b, c, d, by simp, ha, hb, hc, hd⟩
  · rintro ⟨a, b, c, d, rfl, ha, hb, hc, hd⟩
    exact ⟨a ++ [0x2E] ++ (b ++ [0x2E] ++ (c ++ [0x2E])), d, by simp,
      ⟨a ++ [0x2E], b ++ [0x2E] ++ (c ++ [0x2E]), rfl, ⟨a, [0x2E], rfl, ha, rfl⟩,
        b ++ [0x2E], c ++ [0x2E], rfl, ⟨b, [0x2E], rfl, hb, rfl⟩,
        c ++ [0x2E], [], by simp, ⟨c, [0x2E], rfl, hc, rfl⟩, rfl⟩, hd⟩

/-- C1: `validateIP(ip)` of scripts.js is true exactly when `ip` is four groups
separated by single dots, each group 1 to 3 ASCII decimal digits with value 0
to 255, and nothing else; the listed sample inputs behave as stated. -/
theorem validateIP_iff_dotted_quad :
    (∀ ip : JSString, validateIP ip = true ↔ IsDottedQuad ip) ∧
    validateIP (lit "256.1.1.1") = false ∧ validateIP (lit "1.1.1") = false ∧
    validateIP (lit "1.1.1.1.1") = false ∧ validateIP (lit "1..1.1") = false ∧
    validateIP (lit " 1.1.1.1") = false ∧ validateIP (lit "01.002.3.255") = true := by
  refine ⟨fun ip => ?_, by decide, by decide, by decide, by decide, by decide, by decide⟩
  unfold validateIP
  rw [Regex.testWhole_iff, ipRegex_lang]

/-! ### validateEmail (scripts.js) -/

theorem notSpaceAt_iff (c : Nat) : notSpaceAt c = true ↔ isWhiteSpace c = false ∧ c ≠ 0x40 := by
  unfold notSpaceAt
  cases h : isWhiteSpace c <;> simp

theorem isWhiteSpace_dot : isWhiteSpace 0x2E = false := by decide

theorem isWhiteSpace_at : isWhiteSpace 0x40 = false := by decide

theorem emailRegex_lang (e : JSString) :
    Regex.Lang emailRegex e ↔ ∃ l x y : JSString, e = l ++ 0x40 :: (x ++ 0x2E :: y) ∧
      (l ≠ [] ∧ ∀ c ∈ l, notSpaceAt c = true) ∧ (x ≠ [] ∧ ∀ c ∈ x, notSpaceAt c = true) ∧
      (y ≠ [] ∧ ∀ c ∈ y, notSpaceAt c = true) := by
  unfold emailRegex
  simp only [Regex.lang_seq, Regex.lang_plus, Regex.lang_chr]
  constructor
  · rintro ⟨l, r1, rfl, hl, a, r2, rfl, rfl, x, r3, rfl, hx, dt, y, rfl, rfl, hy⟩
    exact ⟨l, x, y, by simp, hl, hx, hy⟩
  · rintro ⟨l, x, y, rfl, hl, hx, hy⟩
    exact ⟨l, 0x40 :: (x ++ 0x2E :: y), rfl, hl, [0x40], x ++ 0x2E :: y, rfl, rfl,
      x, 0x2E :: y, rfl, hx, [0x2E], y, rfl, rfl, hy⟩

/-- C3: `validateEmail(email)` is true exactly when `email` has no white space,
exactly one `@`, at least one code unit before it, and after it a `.` that is
neither the first nor the last code unit of that part. -/
theorem validateEmail_iff_shape (email : JSString) :
    validateEmail email = true ↔ EmailShape email := by
  unfold validateEmail
  rw [Regex.testWhole_iff, emailRegex_lang]
  constructor
  · rintro ⟨l, x, y, rfl, ⟨hl, hla⟩, ⟨hx, hxa⟩, ⟨hy, hya⟩⟩
    have nl : (0x40 : Nat) ∉ l := fun h => ((notSpaceAt_iff _).1 (hla _ h)).2 rfl
    have nx : (0x40 : Nat) ∉ x := fun h => ((notSpaceAt_iff _).1 (hxa _ h)).2 rfl
    have ny : (0x40 : Nat) ∉ y := fun h => ((notSpaceAt_iff _).1 (hya _ h)).2 rfl
    refine ⟨?_, ?_, l, x ++ 0x2E :: y, rfl, hl, x, y, rfl, hx, hy⟩
    · intro c hc
      simp only [List.mem_append, List.mem_cons] at hc
      rcases hc with h | rfl | h | rfl | h
      · exact ((notSpaceAt_iff _).1 (hla _ h)).1
      · exact isWhiteSpace_at
      · exact ((notSpaceAt_iff _).1 (hxa _ h)).1
      · exact isWhiteSpace_dot
      · exact ((notSpaceAt_iff _).1 (hya _ h)).1
    · simp [List.count_append, List.count_cons, List.count_eq_zero.2 nl,
        List.count_eq_zero.2 nx, List.count_eq_zero.2 ny]
  · rintro ⟨hws, hcount, l, d, rfl, hl, x, y, rfl, hx, hy⟩
    simp only [List.count_append, List.count_cons, beq_self_eq_true, if_true] at hcount
    have h46 : ((0x2E : Nat) == 0x40) = false := by decide
    simp only [h46, Bool.false_eq_true, if_false, Nat.add_zero] at hcount
    have cl : List.count 0x40 l = 0 := by omega
    have cx : List.count 0x40 x = 0 := by omega
    have cy : List.count 0x40 y = 0 := by omega
    have key : ∀ z : JSString, List.count 0x40 z = 0 → (∀ c ∈ z, isWhiteSpace c = false) →
        ∀ c ∈ z, notSpaceAt c = true := by
      intro z hz hw c hc
      refine (notSpaceAt_iff c).2 ⟨hw c hc, ?_⟩
      rintro rfl
      exact List.count_eq_zero.1 hz hc
    refine ⟨l, x, y, rfl, ⟨hl, key l cl fun c hc => hws c (by simp [hc])⟩,
      ⟨hx, key x cx fun c hc => hws c (by simp [hc])⟩,
      ⟨hy, key y cy fun c hc => hws c (by simp [hc])⟩⟩

/-! ### validatePort (scripts.js) -/

theorem validatePort_finite (q : ℚ) :
    validatePort (.finite q) = true ↔ q.isInt = true ∧ 1 ≤ q ∧ q ≤ 65535 := by
  simp only [validatePort, JSNumber.isInteger, JSNumber.ge, JSNumber.le, JSNumber.lessThan,
    Bool.and_eq_true, beq_iff_eq, Option.some.injEq, decide_eq_false_iff_not, not_lt, and_assoc]

theorem validatePort_eq_true_iff (port : JSNumber) :
    validatePort port = true ↔ ∃ n : ℤ, port = .finite n ∧ 1 ≤ n ∧ n ≤ 65535 := by
  cases port with
  | nan => simp [validatePort, JSNumber.isInteger]
  | posInf => simp [validatePort, JSNumber.isInteger]
  | negInf => simp [validatePort, JSNumber.isInteger]
  | finite q =>
    rw [validatePort_finite]
    constructor
    · rintro ⟨hint, h1, h2⟩
      have hq : q = (q.num : ℚ) := Rat.eq_num_of_isInt hint
      refine ⟨q.num, by rw [← hq], ?_, ?_⟩
      · rw [hq] at h1; exact_mod_cast h1
      · rw [hq] at h2; exact_mod_cast h2
    · rintro ⟨n, hn, h1, h2⟩
      have hq : q = (n : ℚ) := by
        injection hn
      subst hq
      refine ⟨by simp [Rat.isInt], by exact_mod_cast h1, by exact_mod_cast h2⟩

/-- C2: `validatePort(port)` is true exactly when `port` is an integer between 1
and 65535; it is false for 0, for 65536, for every negative integer, for every
Number that is not an integer (the infinities included) and for NaN. -/
theorem validatePort_iff_integer_in_range :
    (∀ port : JSNumber,
      validatePort port = true ↔ ∃ n : ℤ, port = .finite n ∧ 1 ≤ n ∧ n ≤ 65535) ∧
    validatePort (.finite 0) = false ∧ validatePort (.finite 65536) = false ∧
    (∀ n : ℤ, n < 0 → validatePort (.finite n) = false) ∧
    (∀ q : ℚ, (∀ n : ℤ, q ≠ n) → validatePort (.finite q) = false) ∧
    validatePort .posInf = false ∧ validatePort .negInf = false ∧
    validatePort .nan = false := by
  refine ⟨validatePort_eq_true_iff, by decide, by decide, ?_, ?_, by decide, by decide,
    by decide⟩
  · intro n hn
    rw [← Bool.not_eq_true, validatePort_eq_true_iff]
    rintro ⟨m, hm, h1, -⟩
    injection hm with hm
    have : n = m := by exact_mod_cast hm
    omega
  · intro q hq
    rw [← Bool.not_eq_true, validatePort_eq_true_iff]
    rintro ⟨m, hm, -, -⟩
    injection hm with hm
    exact hq m hm

/-- Instance of C2 at the negative integer -5. -/
theorem validatePort_iff_integer_in_range_witness :
    (-5 : ℤ) < 0 ∧ validatePort (.finite ((-5 : ℤ) : ℚ)) = false :=
  ⟨by decide, validatePort_iff_integer_in_range.2.2.2.1 (-5) (by decide)⟩

/-! ### sanitizeInput (scripts.js) -/

theorem escapeText_no_angle (str : JSString) :
    0x3C ∉ escapeText str ∧ 0x3E ∉ escapeText str := by
  induction str with
  | nil => simp [escapeText]
  | cons c t ih =>
    obtain ⟨ih1, ih2⟩ := ih
    simp only [escapeText, List.mem_append, not_or]
    refine ⟨⟨?_, ih1⟩, ⟨?_, ih2⟩⟩
    · split_ifs with h1 h2 h3 h4
      · decide
      · decide
      · decide
      · decide
      · simpa using fun h => h3 h.symm
    · split_ifs with h1 h2 h3 h4
      · decide
      · decide
      · decide
      · decide
      · simpa using fun h => h4 h.symm

/-- C4 (what the code does): `sanitizeInput` returns a double quote unchanged,
so its result can contain `"`; only `<` and `>` are always absent from it. -/
theorem sanitizeInput_keeps_double_quote :
    sanitizeInput [0x22] = [0x22] ∧
    sanitizeInput (0x22 :: lit " autofocus onfocus=alert(1) x=" ++ [0x22]) =
      0x22 :: lit " autofocus onfocus=alert(1) x=" ++ [0x22] ∧
    ∀ str : JSString, 0x3C ∉ sanitizeInput str ∧ 0x3E ∉ sanitizeInput str :=
  ⟨by decide, by decide, escapeText_no_angle⟩

/-! ### uploadConfig (config_manager.js) -/

/-- C5: `uploadConfig` issues the POST to `/api/config/upload` exactly when the
type is non-empty, a file is chosen, its lower-cased name ends with `.json` and
its size is at most 10240 (10240 is sent, 10241 is not); otherwise the only
action is the status of the first failing check, in the order type, file,
extension, size. -/
theorem uploadConfig_sends_iff_checks (toLowerCase : JSString → JSString)
    (configType : JSString) (configFile : Option File) :
    ((∃ e ∈ uploadConfig toLowerCase configType configFile, e.isFetch = true) ↔
      configType ≠ [] ∧ ∃ file, configFile = some file ∧
        endsWith (toLowerCase file.name) (lit ".json") = true ∧ file.size ≤ 10240) ∧
    (configType ≠ [] → ∀ file, configFile = some file →
      endsWith (toLowerCase file.name) (lit ".json") = true → file.size ≤ 10240 →
      uploadConfig toLowerCase configType configFile =
        [.showUploadStatus (lit "⏳ Enviando configuração...") (lit "info"),
         .fetch (lit "/api/config/upload") (lit "POST")]) ∧
    (configType = [] → uploadConfig toLowerCase configType configFile =
      [.showUploadStatus (lit "⚠️ Selecione o tipo de configuração") (lit "warning")]) ∧
    (configType ≠ [] → configFile = none → uploadConfig toLowerCase configType configFile =
      [.showUploadStatus (lit "⚠️ Selecione um arquivo JSON") (lit "warning")]) ∧
    (configType ≠ [] → ∀ file, configFile = some file →
      endsWith (toLowerCase file.name) (lit ".json") = false →
      uploadConfig toLowerCase configType configFile =
        [.showUploadStatus (lit "❌ Apenas arquivos .json são aceitos") (lit "error")]) ∧
    (configType ≠ [] → ∀ file, configFile = some file →
      endsWith (toLowerCase file.name) (lit ".json") = true → 10240 < file.size →
      uploadConfig toLowerCase configType configFile =
        [.showUploadStatus (lit "❌ Arquivo muito grande. Tamanho máximo: 10KB")
          (lit "error")]) := by
  have hty : ∀ t : JSString, t.isEmpty = true ↔ t = [] := fun t => List.isEmpty_iff
  refine ⟨?_, ?_, ?_, ?_, ?_, ?_⟩
  · unfold uploadConfig
    by_cases h0 : configType = []
    · subst h0
      simp [Effect.isFetch]
    · have h0b : configType.isEmpty = false := by
        rw [← Bool.not_eq_true, hty]; exact h0
      cases configFile with
      | none => simp [h0b, Effect.isFetch]
      | some file =>
        by_cases h1 : endsWith (toLowerCase file.name) (lit ".json") = true
        · by_cases h2 : file.size ≤ 10240
          · have h2n : ¬ file.size > 10240 := by omega
            simp [h0b, h0, h1, h2, h2n, Effect.isFetch]
          · have h2p : file.size > 10240 := by omega
            simp [h0b, h1, h2, h2p, Effect.isFetch]
        · have h1f : endsWith (toLowerCase file.name) (lit ".json") = false := by
            simpa using h1
          simp [h0b, h1f, Effect.isFetch]
  · rintro h0 file rfl h1 h2
    have h0b : configType.isEmpty = false := by
      rw [← Bool.not_eq_true, hty]; exact h0
    have h2n : ¬ file.size > 10240 := by omega
    simp [uploadConfig, h0b, h1, h2n]
  · rintro rfl
    simp [uploadConfig]
  · rintro h0 rfl
    have h0b : configType.isEmpty = false := by
      rw [← Bool.not_eq_true, hty]; exact h0
    simp [uploadConfig, h0b]
  · rintro h0 file rfl h1
    have h0b : configType.isEmpty = false := by
      rw [← Bool.not_eq_true, hty]; exact h0
    simp [uploadConfig, h0b, h1]
  · rintro h0 file rfl h1 h2
    have h0b : configType.isEmpty = false := by
      rw [← Bool.not_eq_true, hty]; exact h0
    simp [uploadConfig, h0b, h1, h2]

/-- Instances of C5 at the size boundary: a file `cfg.JSON` of 10240 bytes is
sent, the same file with 10241 bytes gets the size status and no request. -/
theorem uploadConfig_sends_iff_checks_witness :
    uploadConfig asciiToLowerCase (lit "modbus") (some ⟨lit "cfg.JSON", 10240⟩) =
      [.showUploadStatus (lit "⏳ Enviando configuração...") (lit "info"),
       .fetch (lit "/api/config/upload") (lit "POST")] ∧
    uploadConfig asciiToLowerCase (lit "modbus") (some ⟨lit "cfg.JSON", 10241⟩) =
      [.showUploadStatus (lit "❌ Arquivo muito grande. Tamanho máximo: 10KB")
        (lit "error")] :=
  ⟨(uploadConfig_sends_iff_checks asciiToLowerCase (lit "modbus")
      (some ⟨lit "cfg.JSON", 10240⟩)).2.1 (by decide) _ rfl (by decide) (by decide),
   (uploadConfig_sends_iff_checks asciiToLowerCase (lit "modbus")
      (some ⟨lit "cfg.JSON", 10241⟩)).2.2.2.2.2 (by decide) _ rfl (by decide) (by decide)⟩

/-! ### doFactoryReset (scripts.js) -/

/-- C6: `doFactoryReset` issues the POST to `/factory_reset` exactly when the
confirmation dialog is accepted; when it is declined the dialog is the only
action (no request, no toast, no redirect); a redirect is scheduled only for
an accepted dialog and a response with `ok`, and then it goes to `/`. -/
theorem doFactoryReset_post_iff_accepted (accepted : Bool) (outcome : FetchOutcome) :
    (Effect.fetch (lit "/factory_reset") (lit "POST") ∈ doFactoryReset accepted outcome ↔
      accepted = true) ∧
    ((∃ e ∈ doFactoryReset accepted outcome, e.isFetch = true) ↔ accepted = true) ∧
    (accepted = false → doFactoryReset accepted outcome = [.confirm CONFIRM_FACTORY_RESET]) ∧
    (accepted = false → ∀ e ∈ doFactoryReset accepted outcome,
      e.isFetch = false ∧ e.isToast = false ∧ e.isRedirect = false) ∧
    (∀ href ms, Effect.scheduleRedirect href ms ∈ doFactoryReset accepted outcome →
      accepted = true ∧ (∃ r, outcome = .resolved r ∧ r.ok = true) ∧
      href = lit "/" ∧ ms = 3000) ∧
    (accepted = true → ∀ r, outcome = .resolved r → r.ok = true →
      Effect.scheduleRedirect (lit "/") 3000 ∈ doFactoryReset accepted outcome) := by
  cases accepted with
  | false =>
    simp [doFactoryReset, Effect.isFetch, Effect.isToast, Effect.isRedirect]
  | true =>
    cases outcome with
    | pending => simp [doFactoryReset, Effect.isFetch]
    | rejected => simp [doFactoryReset, Effect.isFetch]
    | resolved r =>
      by_cases hok : r.ok = true
      · simp [doFactoryReset, Effect.isFetch, hok]
      · have hok2 : r.ok = false := by simpa using hok
        simp [doFactoryReset, Effect.isFetch, hok2]

/-- Instance of C6: a declined dialog performs the dialog only. -/
theorem doFactoryReset_post_iff_accepted_witness :
    doFactoryReset false (.resolved ⟨true, false, []⟩) = [.confirm CONFIRM_FACTORY_RESET] :=
  (doFactoryReset_post_iff_accepted false (.resolved ⟨true, false, []⟩)).2.2.1 rfl

/-! ### validateForm and saveConfig (scripts.js) -/

theorem validateFields_fst (parseFloat : JSString → JSNumber) (fields : List Field) :
    ∀ (index : Nat) (flag : Bool), (validateFields parseFloat index fields flag).1 =
      (flag && fields.all (fun f => (validateField parseFloat f).1)) := by
  induction fields with
  | nil => intro index flag; simp [validateFields]
  | cons f rest ih =>
    intro index flag
    simp only [validateFields, ih, List.all_cons]
    cases (validateField parseFloat f).1 <;> cases flag <;> simp

theorem validateFields_no_fetch (parseFloat : JSString → JSNumber) (fields : List Field) :
    ∀ (index : Nat) (flag : Bool), ∀ e ∈ (validateFields parseFloat index fields flag).2,
      e.isFetch = false := by
  induction fields with
  | nil => intro index flag e he; simp [validateFields] at he
  | cons f rest ih =>
    intro index flag e he
    simp only [validateFields, List.mem_cons] at he
    rcases he with rfl | he
    · rfl
    · exact ih _ _ e he

theorem validateForm_fst (parseFloat : JSString → JSNumber) (form : Form) :
    (validateForm parseFloat form).1 =
      form.fields.all (fun f => (validateField parseFloat f).1) := by
  unfold validateForm
  simp only [validateFields_fst, Bool.true_and]
  split <;> rfl

theorem validateForm_no_fetch (parseFloat : JSString → JSNumber) (form : Form) :
    ∀ e ∈ (validateForm parseFloat form).2, e.isFetch = false := by
  intro e he
  simp only [validateForm] at he
  by_cases hv : (!(validateFields parseFloat 0 form.fields true).1) = true
  · rw [if_pos hv] at he
    simp only [List.mem_append, List.mem_singleton] at he
    rcases he with he | rfl
    · exact validateFields_no_fetch _ _ _ _ e he
    · rfl
  · rw [if_neg hv] at he
    exact validateFields_no_fetch _ _ _ _ e he

theorem filter_isFetch_eq_nil {l : List Effect} (h : ∀ e ∈ l, e.isFetch = false) :
    l.filter Effect.isFetch = [] := by
  rw [List.filter_eq_nil_iff]
  intro e he
  simp [h e he]

/-- C7: `validateForm(form)` is false exactly when some control of the form
fails `validateField`; then `saveConfig(form, endpoint)` performs no `fetch`
and leaves the submit control as it was; when every control passes it performs
exactly one `fetch`, a POST to `endpoint`. -/
theorem saveConfig_sends_iff_form_valid (parseFloat : JSString → JSNumber) (form : Form)
    (endpoint : JSString) (outcome : FetchOutcome) :
    ((validateForm parseFloat form).1 = false ↔
      ∃ f ∈ form.fields, (validateField parseFloat f).1 = false) ∧
    ((validateForm parseFloat form).1 = false →
      (∀ e ∈ (saveConfig parseFloat form endpoint outcome).effects, e.isFetch = false) ∧
      (saveConfig parseFloat form endpoint outcome).submitButton = form.submitButton) ∧
    ((∀ f ∈ form.fields, (validateField parseFloat f).1 = true) →
      (saveConfig parseFloat form endpoint outcome).effects.filter Effect.isFetch =
        [.fetch endpoint (lit "POST")]) := by
  refine ⟨?_, ?_, ?_⟩
  · rw [validateForm_fst, ← Bool.not_eq_true, List.all_eq_true]
    push_neg
    simp only [Bool.not_eq_true]
  · intro h
    have hs : saveConfig parseFloat form endpoint outcome =
        { effects := (validateForm parseFloat form).2, submitButton := form.submitButton } := by
      simp [saveConfig, h]
    rw [hs]
    exact ⟨validateForm_no_fetch parseFloat form, rfl⟩
  · intro h
    have hv : (validateForm parseFloat form).1 = true := by
      rw [validateForm_fst, List.all_eq_true]
      exact h
    have hnil := filter_isFetch_eq_nil (validateForm_no_fetch parseFloat form)
    unfold saveConfig
    simp only [hv, Bool.not_true, Bool.false_eq_true, if_false]
    cases outcome with
    | pending => simp [List.filter_append, hnil, List.filter, Effect.isFetch]
    | rejected => simp [List.filter_append, hnil, List.filter, Effect.isFetch]
    | resolved r =>
      by_cases hok : r.ok = true
      · by_cases hr : r.redirected = true
        · simp [List.filter_append, hnil, List.filter, Effect.isFetch, hok, hr]
        · simp [List.filter_append, hnil, List.filter, Effect.isFetch, hok, hr]
      · simp [List.filter_append, hnil, List.filter, Effect.isFetch, hok]

/-- Instances of C7: a form whose only control is an empty required one sends
nothing and keeps its submit control; a form with a valid port sends one POST. -/
theorem saveConfig_sends_iff_form_valid_witness :
    (saveConfig (fun _ => JSNumber.nan)
        ⟨[⟨[], lit "text", lit "host", true, none, none⟩], some ⟨false, lit "Salvar", none⟩⟩
        (lit "/save_config") .rejected).submitButton = some ⟨false, lit "Salvar", none⟩ ∧
    (saveConfig (fun _ => JSNumber.nan)
        ⟨[⟨lit "502", lit "text", lit "port", true, none, none⟩], none⟩
        (lit "/save_config") .pending).effects.filter Effect.isFetch =
      [.fetch (lit "/save_config") (lit "POST")] :=
  ⟨((saveConfig_sends_iff_form_valid (fun _ => JSNumber.nan)
      ⟨[⟨[], lit "text", lit "host", true, none, none⟩], some ⟨false, lit "Salvar", none⟩⟩
      (lit "/save_config") .rejected).2.1 (by decide)).2,
   (saveConfig_sends_iff_form_valid (fun _ => JSNumber.nan)
      ⟨[⟨lit "502", lit "text", lit "port", true, none, none⟩], none⟩
      (lit "/save_config") .pending).2.2 (by decide)⟩

/-! ### The port rule of validateField (scripts.js) -/

theorem JSNumber.ofNat_of_lt {n : Nat} (h : n < 2 ^ 53) : JSNumber.ofNat n = .finite n := by
  unfold JSNumber.ofNat
  rw [if_pos h]

theorem JSNumber.ofNat_of_ge {n : Nat} (h : 2 ^ 53 ≤ n) :
    JSNumber.ofNat n = .posInf ∨ ∃ m : Nat, 2 ^ 52 ≤ m ∧ JSNumber.ofNat n = .finite m := by
  have hn0 : n ≠ 0 := by
    have : 0 < 2 ^ 53 := by norm_num
    omega
  have hlog : 53 ≤ Nat.log2 n := (Nat.le_log2 hn0).2 h
  have hq : 2 ^ 52 ≤ n / 2 ^ (Nat.log2 n - 52) := by
    rw [Nat.le_div_iff_mul_le (Nat.pos_pow_of_pos _ (by norm_num)), ← Nat.pow_add]
    have : 52 + (Nat.log2 n - 52) = Nat.log2 n := by omega
    rw [this]
    exact Nat.log2_self_le hn0
  have hpow : 1 ≤ 2 ^ (Nat.log2 n - 52) := Nat.one_le_two_pow
  unfold JSNumber.ofNat
  rw [if_neg (by omega)]
  simp only
  split_ifs with h1 h2
  · exact Or.inl rfl
  · refine Or.inr ⟨_, ?_, rfl⟩
    calc 2 ^ 52 ≤ n / 2 ^ (Nat.log2 n - 52) + 1 := by omega
      _ = (n / 2 ^ (Nat.log2 n - 52) + 1) * 1 := by ring
      _ ≤ (n / 2 ^ (Nat.log2 n - 52) + 1) * 2 ^ (Nat.log2 n - 52) :=
        Nat.mul_le_mul_left _ hpow
  · exact Or.inl rfl
  · refine Or.inr ⟨_, ?_, rfl⟩
    calc 2 ^ 52 ≤ n / 2 ^ (Nat.log2 n - 52) := hq
      _ = (n / 2 ^ (Nat.log2 n - 52)) * 1 := by ring
      _ ≤ (n / 2 ^ (Nat.log2 n - 52)) * 2 ^ (Nat.log2 n - 52) :=
        Nat.mul_le_mul_left _ hpow

theorem validatePort_ofNat (n : Nat) :
    validatePort (JSNumber.ofNat n) = true ↔ 1 ≤ n ∧ n ≤ 65535 := by
  by_cases h : n < 2 ^ 53
  · rw [JSNumber.ofNat_of_lt h, validatePort_finite]
    constructor
    · rintro ⟨-, h1, h2⟩
      exact ⟨by exact_mod_cast h1, by exact_mod_cast h2⟩
    · rintro ⟨h1, h2⟩
      exact ⟨by simp [Rat.isInt], by exact_mod_cast h1, by exact_mod_cast h2⟩
  · have hge : 2 ^ 53 ≤ n := by omega
    have hbig : ¬ (1 ≤ n ∧ n ≤ 65535) := by
      have : (65535 : Nat) < 2 ^ 53 := by norm_num
      omega
    rcases JSNumber.ofNat_of_ge hge with h1 | ⟨m, hm, h1⟩
    · rw [h1]
      simp [validatePort, JSNumber.isInteger, hbig]
    · rw [h1, validatePort_finite]
      constructor
      · rintro ⟨-, -, h2⟩
        have h3 : m ≤ 65535 := by exact_mod_cast h2
        have : (65535 : Nat) < 2 ^ 52 := by norm_num
        omega
      · intro h2
        exact absurd h2 hbig

theorem validatePort_neg_ofNat (n : Nat) : validatePort (JSNumber.ofNat n).neg = false := by
  have key : ∀ m : Nat, validatePort (JSNumber.finite (m : ℚ)).neg = false := by
    intro m
    rw [← Bool.not_eq_true]
    simp only [JSNumber.neg, validatePort_finite]
    rintro ⟨-, h1, -⟩
    have h0 : (0 : ℚ) ≤ (m : ℚ) := by exact_mod_cast Nat.zero_le m
    linarith
  by_cases h : n < 2 ^ 53
  · rw [JSNumber.ofNat_of_lt h]
    exact key n
  · rcases JSNumber.ofNat_of_ge (by omega : 2 ^ 53 ≤ n) with h1 | ⟨m, -, h1⟩
    · rw [h1]; decide
    · rw [h1]
      exact key m

theorem validatePort_parseInt (s : JSString) :
    validatePort (parseInt s) = true ↔ ∃ n : ℤ, leadingInteger s = some n ∧ 1 ≤ n ∧ n ≤ 65535 := by
  unfold parseInt leadingInteger
  simp only
  by_cases hds : leadingDigits (stripHexPrefix (stripSign (trimStart s)).2).1
      (stripHexPrefix (stripSign (trimStart s)).2).2 = []
  · simp [hds, validatePort, JSNumber.isInteger]
  · rw [if_neg hds, if_neg hds]
    cases hsign : (stripSign (trimStart s)).1 with
    | true =>
      simp only [if_true, validatePort_neg_ofNat, Bool.false_eq_true, false_iff]
      rintro ⟨n, hn, h1, -⟩
      simp only [Option.some.injEq] at hn
      omega
    | false =>
      simp only [Bool.false_eq_true, if_false, validatePort_ofNat, Option.some.injEq]
      constructor
      · rintro ⟨h1, h2⟩
        exact ⟨_, rfl, by exact_mod_cast h1, by exact_mod_cast h2⟩
      · rintro ⟨n, rfl, h1, h2⟩
        exact ⟨by exact_mod_cast h1, by exact_mod_cast h2⟩

theorem isDigit_iff (c : Nat) : isDigit c = true ↔ 0x30 ≤ c ∧ c ≤ 0x39 := by
  simp [isDigit]

theorem isWhiteSpace_of_isDigit {c : Nat} (h : isDigit c = true) : isWhiteSpace c = false := by
  obtain ⟨h1, h2⟩ := (isDigit_iff c).1 h
  rw [← Bool.not_eq_true]
  simp only [isWhiteSpace, Bool.or_eq_true, Bool.and_eq_true, beq_iff_eq, decide_eq_true_eq]
  omega

theorem digitValue_ten_of_isDigit {c : Nat} (h : isDigit c = true) :
    digitValue 10 c = some (c - 0x30) := by
  obtain ⟨h1, h2⟩ := (isDigit_iff c).1 h
  have hlt : c - 0x30 < 10 := by omega
  simp [digitValue, h, hlt]

theorem leadingDigits_of_digits (v : JSString) (h : ∀ c ∈ v, isDigit c = true) :
    leadingDigits 10 v = v.map (fun c => c - 0x30) := by
  induction v with
  | nil => rfl
  | cons c t ih =>
    have hc := digitValue_ten_of_isDigit (h c (List.mem_cons_self _ _))
    simp only [leadingDigits, hc, List.map_cons]
    rw [ih (fun d hd => h d (List.mem_cons_of_mem _ hd))]

theorem leadingInteger_of_digits (v : JSString) (hne : v ≠ [])
    (h : ∀ c ∈ v, isDigit c = true) : leadingInteger v = some (decValue v : ℤ) := by
  obtain ⟨c, t, rfl⟩ := List.exists_cons_of_ne_nil hne
  have hc := h c (List.mem_cons_self _ _)
  obtain ⟨hc1, hc2⟩ := (isDigit_iff c).1 hc
  have htrim : trimStart (c :: t) = c :: t := by
    simp [trimStart, List.dropWhile, isWhiteSpace_of_isDigit hc]
  have hsign : stripSign (c :: t) = (false, c :: t) := by
    have h1 : c ≠ 0x2D := by omega
    have h2 : c ≠ 0x2B := by omega
    simp [stripSign, h1, h2]
  have hhex : stripHexPrefix (c :: t) = (10, c :: t) := by
    cases t with
    | nil => rfl
    | cons d t =>
      have hd := h d (by simp)
      obtain ⟨hd1, hd2⟩ := (isDigit_iff d).1 hd
      have h1 : ¬ (c = 0x30 ∧ (d = 0x78 ∨ d = 0x58)) := by omega
      simp only [stripHexPrefix, if_neg h1]
  unfold leadingInteger
  simp only [htrim, hsign, hhex, leadingDigits_of_digits _ h]
  rw [if_neg (by simp)]
  simp only [Bool.false_eq_true, if_false, List.foldl_map, decValue]

/-- C10 as stated fails: the text control named `port` holding `80abc` passes
`validateField` with no message, although `80abc` is not a decimal numeral. -/
theorem validateField_port_accepts_trailing_text :
    portFieldTrailingText.name = lit "port" ∧ portFieldTrailingText.type = lit "text" ∧
    trim portFieldTrailingText.value ≠ [] ∧
    (∀ parseFloat : JSString → JSNumber,
      validateField parseFloat portFieldTrailingText = (true, [])) ∧
    ¬ IsPortNumeral (trim portFieldTrailingText.value) := by
  refine ⟨rfl, rfl, by decide, fun _ => rfl, ?_⟩
  rintro ⟨-, h, -⟩
  have h61 := h 0x61 (by decide)
  revert h61
  decide

/-- C10 (amended): for a text control named `port` with a non-empty trimmed
value, `validateField` returns true exactly when the integer `parseInt` reads
from the value lies between 1 and 65535, and otherwise returns false with the
message `Porta deve estar entre 1 e 65535`; when the value consists of decimal
digits only, this is exactly when it is the numeral of such an integer. -/
theorem validateField_port_iff_parseInt_in_range (parseFloat : JSString → JSNumber)
    (field : Field) (hname : field.name = lit "port") (htype : field.type = lit "text")
    (hval : trim field.value ≠ []) :
    ((validateField parseFloat field).1 = true ↔
      ∃ n : ℤ, leadingInteger (trim field.value) = some n ∧ 1 ≤ n ∧ n ≤ 65535) ∧
    ((validateField parseFloat field).1 = true → validateField parseFloat field = (true, [])) ∧
    ((validateField parseFloat field).1 = false →
      validateField parseFloat field = (false, lit "Porta deve estar entre 1 e 65535")) ∧
    ((∀ c ∈ trim field.value, isDigit c = true) →
      ((validateField parseFloat field).1 = true ↔ IsPortNumeral (trim field.value))) := by
  have hempty : (trim field.value).isEmpty = false := by
    rw [← Bool.not_eq_true, List.isEmpty_iff]; exact hval
  have h1 : lit "text" ≠ lit "email" := by decide
  have h2 : lit "text" ≠ lit "number" := by decide
  have h3 : lit "port" ≠ lit "ip" := by decide
  have hform : validateField parseFloat field =
      if validatePort (parseInt (trim field.value)) = false then
        (false, lit "Porta deve estar entre 1 e 65535") else (true, []) := by
    simp [validateField, validateByType, hempty, hname, htype, h1, h2, h3]
  have hiff : (validateField parseFloat field).1 = true ↔
      ∃ n : ℤ, leadingInteger (trim field.value) = some n ∧ 1 ≤ n ∧ n ≤ 65535 := by
    rw [← validatePort_parseInt, hform]
    cases validatePort (parseInt (trim field.value)) <;> simp
  refine ⟨hiff, ?_, ?_, ?_⟩
  · rw [hform]
    cases validatePort (parseInt (trim field.value)) <;> simp
  · rw [hform]
    cases validatePort (parseInt (trim field.value)) <;> simp
  · intro hdig
    rw [hiff, leadingInteger_of_digits _ hval hdig]
    constructor
    · rintro ⟨n, hn, h1, h2⟩
      simp only [Option.some.injEq] at hn
      exact ⟨hval, hdig, by omega, by omega⟩
    · rintro ⟨-, -, h1, h2⟩
      exact ⟨_, rfl, by omega, by omega⟩

/-- Instance of C10 (amended) at the control holding `80abc`. -/
theorem validateField_port_iff_parseInt_in_range_witness :
    portFieldTrailingText.name = lit "port" ∧ portFieldTrailingText.type = lit "text" ∧
    trim portFieldTrailingText.value ≠ [] ∧
    ((validateField (fun _ => JSNumber.nan) portFieldTrailingText).1 = true ↔
      ∃ n : ℤ, leadingInteger (trim portFieldTrailingText.value) = some n ∧
        1 ≤ n ∧ n ≤ 65535) :=
  ⟨rfl, rfl, by decide,
   (validateField_port_iff_parseInt_in_range (fun _ => JSNumber.nan) portFieldTrailingText
      rfl rfl (by decide)).1⟩

/-! ### validateForm (ap-config.js) -/

theorem trimStart_of_isDigit {c : Nat} (t : JSString) (hc : isDigit c = true) :
    trimStart (c :: t) = c :: t := by
  simp [trimStart, List.dropWhile, isWhiteSpace_of_isDigit hc]

theorem parseInt_of_digits (v : JSString) (hne : v ≠ [])
    (h : ∀ c ∈ v, isDigit c = true) : parseInt v = JSNumber.ofNat (decValue v) := by
  obtain ⟨c, t, rfl⟩ := List.exists_cons_of_ne_nil hne
  have hc := h c (List.mem_cons_self _ _)
  obtain ⟨hc1, hc2⟩ := (isDigit_iff c).1 hc
  have hsign : stripSign (c :: t) = (false, c :: t) := by
    have h1 : c ≠ 0x2D := by omega
    have h2 : c ≠ 0x2B := by omega
    simp [stripSign, h1, h2]
  have hhex : stripHexPrefix (c :: t) = (10, c :: t) := by
    cases t with
    | nil => rfl
    | cons d t =>
      have hd := h d (by simp)
      obtain ⟨hd1, hd2⟩ := (isDigit_iff d).1 hd
      have h1 : ¬ (c = 0x30 ∧ (d = 0x78 ∨ d = 0x58)) := by omega
      simp only [stripHexPrefix, if_neg h1]
  unfold parseInt
  simp only [trimStart_of_isDigit t hc, hsign, hhex, leadingDigits_of_digits _ h]
  rw [if_neg (by simp)]
  simp only [Bool.false_eq_true, if_false, List.foldl_map, decValue]

theorem octetRange_ofNat (n : Nat) :
    ((JSNumber.ofNat n).ge (.finite 0) && (JSNumber.ofNat n).le (.finite 255)) = true ↔
      n ≤ 255 := by
  have hfin : ∀ m : Nat, ((JSNumber.finite (m : ℚ)).ge (.finite 0) &&
      (JSNumber.finite (m : ℚ)).le (.finite 255)) = true ↔ m ≤ 255 := by
    intro m
    simp only [JSNumber.ge, JSNumber.le, JSNumber.lessThan, Bool.and_eq_true, beq_iff_eq,
      Option.some.injEq, decide_eq_false_iff_not, not_lt]
    constructor
    · rintro ⟨-, h2⟩
      exact_mod_cast h2
    · intro h2
      exact ⟨by exact_mod_cast Nat.zero_le m, by exact_mod_cast h2⟩
  by_cases h : n < 2 ^ 53
  · rw [JSNumber.ofNat_of_lt h]
    exact hfin n
  · have hbig : ¬ n ≤ 255 := by
      have : (255 : Nat) < 2 ^ 53 := by norm_num
      omega
    rcases JSNumber.ofNat_of_ge (by omega : 2 ^ 53 ≤ n) with h1 | ⟨m, hm, h1⟩
    · rw [h1]
      simp [JSNumber.ge, JSNumber.le, JSNumber.lessThan, hbig]
    · rw [h1, hfin]
      have : (255 : Nat) < 2 ^ 52 := by norm_num
      constructor
      · intro h2; omega
      · intro h2; exact absurd h2 hbig

theorem splitOn_of_not_mem (sep : Nat) (d : JSString) (h : sep ∉ d) : splitOn sep d = [d] := by
  induction d with
  | nil => rfl
  | cons c t ih =>
    have hc : c ≠ sep := fun e => h (e ▸ List.mem_cons_self _ _)
    have ht : sep ∉ t := fun e => h (List.mem_cons_of_mem _ e)
    simp only [splitOn, if_neg hc, ih ht]

theorem splitOn_append (sep : Nat) (a rest : JSString) (h : sep ∉ a) :
    splitOn sep (a ++ sep :: rest) = a :: splitOn sep rest := by
  induction a with
  | nil => simp [splitOn]
  | cons c t ih =>
    have hc : c ≠ sep := fun e => h (e ▸ List.mem_cons_self _ _)
    have ht : sep ∉ t := fun e => h (List.mem_cons_of_mem _ e)
    have ih2 := ih ht
    rw [List.cons_append]
    simp only [splitOn, if_neg hc]
    rw [ih2]

theorem dot_not_mem_of_digits {u : JSString} (h : ∀ c ∈ u, isDigit c = true) :
    (0x2E : Nat) ∉ u := by
  intro hm
  have := (isDigit_iff _).1 (h _ hm)
  omega

theorem Regex.lang_cls (p : Nat → Bool) (u : JSString) :
    Regex.Lang (Regex.cls p) u ↔ ∃ c, u = [c] ∧ p c = true :=
  Iff.rfl

theorem digits13_lang (u : JSString) :
    Regex.Lang APConfig.digits13 u ↔
      1 ≤ u.length ∧ u.length ≤ 3 ∧ ∀ c ∈ u, isDigit c = true := by
  unfold APConfig.digits13
  simp only [Regex.upTo, Regex.lang_seq, Regex.lang_opt, Regex.lang_empty, Regex.lang_cls]
  constructor
  · rintro ⟨v, w, rfl, ⟨a, rfl, ha⟩, hw⟩
    rcases hw with ⟨x, y, rfl, ⟨b, rfl, hb⟩, hy⟩ | rfl
    · rcases hy with ⟨x2, y2, rfl, ⟨c, rfl, hc⟩, rfl⟩ | rfl
      · refine ⟨by simp, by simp, ?_⟩
        intro d hd
        simp only [List.singleton_append, List.mem_cons, List.mem_singleton,
          List.not_mem_nil, or_false] at hd
        rcases hd with rfl | rfl | rfl
        · exact ha
        · exact hb
        · exact hc
      · refine ⟨by simp, by simp, ?_⟩
        intro d hd
        simp only [List.singleton_append, List.append_nil, List.mem_cons, List.mem_singleton,
          List.not_mem_nil, or_false] at hd
        rcases hd with rfl | rfl
        · exact ha
        · exact hb
    · refine ⟨by simp, by simp, ?_⟩
      intro d hd
      simp only [List.append_nil, List.mem_singleton] at hd
      exact hd ▸ ha
  · rintro ⟨h1, h3, hdig⟩
    match u, h1, h3, hdig with
    | [a], _, _, hdig =>
      exact ⟨[a], [], rfl, ⟨a, rfl, hdig a (by simp)⟩, Or.inr rfl⟩
    | [a, b], _, _, hdig =>
      exact ⟨[a], [b], rfl, ⟨a, rfl, hdig a (by simp)⟩,
        Or.inl ⟨[b], [], rfl, ⟨b, rfl, hdig b (by simp)⟩, Or.inr rfl⟩⟩
    | [a, b, c], _, _, hdig =>
      exact ⟨[a], [b, c], rfl, ⟨a, rfl, hdig a (by simp)⟩,
        Or.inl ⟨[b], [c], rfl, ⟨b, rfl, hdig b (by simp)⟩,
          Or.inl ⟨[c], [], rfl, ⟨c, rfl, hdig c (by simp)⟩, rfl⟩⟩⟩

theorem apIpRegex_lang (s : JSString) :
    Regex.Lang APConfig.ipRegex s ↔ ∃ a b c d : JSString,
      s = a ++ 0x2E :: (b ++ 0x2E :: (c ++ 0x2E :: d)) ∧
      Regex.Lang APConfig.digits13 a ∧ Regex.Lang APConfig.digits13 b ∧
      Regex.Lang APConfig.digits13 c ∧ Regex.Lang APConfig.digits13 d := by
  unfold APConfig.ipRegex
  simp only [Regex.times, Regex.lang_seq, Regex.lang_empty, Regex.lang_chr]
  constructor
  · rintro ⟨v, d, rfl, ⟨v1, v2, rfl, ⟨a, p1, rfl, ha, rfl⟩,
      w1, w2, rfl, ⟨b, p2, rfl, hb, rfl⟩, x1, x2, rfl, ⟨c, p3, rfl, hc, rfl⟩, rfl⟩, hd⟩
    exact ⟨a, b, c, d, by simp, ha, hb, hc, hd⟩
  · rintro ⟨a, b, c, d, rfl, ha, hb, hc, hd⟩
    exact ⟨a ++ [0x2E] ++ (b ++ [0x2E] ++ (c ++ [0x2E])), d, by simp,
      ⟨a ++ [0x2E], b ++ [0x2E] ++ (c ++ [0x2E]), rfl, ⟨a, [0x2E], rfl, ha, rfl⟩,
        b ++ [0x2E], c ++ [0x2E], rfl, ⟨b, [0x2E], rfl, hb, rfl⟩,
        c ++ [0x2E], [], by simp, ⟨c, [0x2E], rfl, hc, rfl⟩, rfl⟩, hd⟩

theorem octetCheck_of_digits (o : JSString) (h : 1 ≤ o.length ∧ o.length ≤ 3 ∧
    ∀ c ∈ o, isDigit c = true) :
    ((parseInt o).ge (.finite 0) && (parseInt o).le (.finite 255)) = true ↔ IsOctet o := by
  obtain ⟨h1, h3, hdig⟩ := h
  have hne : o ≠ [] := by
    intro e
    rw [e] at h1
    simp at h1
  rw [parseInt_of_digits o hne hdig, octetRange_ofNat]
  exact ⟨fun hv => ⟨h1, h3, hdig, hv⟩, fun ho => ho.2.2.2⟩

theorem apValidateIP_iff (ip : JSString) :
    (APConfig.validateIP ip).1 = true ↔ IsDottedQuad (trim ip) := by
  have hfst : (APConfig.validateIP ip).1 =
      if APConfig.ipRegex.testWhole (trim ip) = true then
        (splitOn 0x2E (trim ip)).all (fun octet =>
          (parseInt octet).ge (.finite 0) && (parseInt octet).le (.finite 255))
      else APConfig.ipRegex.testWhole (trim ip) := rfl
  rw [hfst]
  have hsplit : ∀ a b c d : JSString, (∀ x ∈ a, isDigit x = true) →
      (∀ x ∈ b, isDigit x = true) → (∀ x ∈ c, isDigit x = true) →
      (∀ x ∈ d, isDigit x = true) →
      splitOn 0x2E (a ++ 0x2E :: (b ++ 0x2E :: (c ++ 0x2E :: d))) = [a, b, c, d] := by
    intro a b c d ha hb hc hd
    rw [splitOn_append _ _ _ (dot_not_mem_of_digits ha),
      splitOn_append _ _ _ (dot_not_mem_of_digits hb),
      splitOn_append _ _ _ (dot_not_mem_of_digits hc),
      splitOn_of_not_mem _ _ (dot_not_mem_of_digits hd)]
  constructor
  · intro h
    by_cases hm : APConfig.ipRegex.testWhole (trim ip) = true
    · rw [if_pos hm] at h
      obtain ⟨a, b, c, d, heq, ha, hb, hc, hd⟩ :=
        (apIpRegex_lang _).1 ((Regex.testWhole_iff _ _).1 hm)
      rw [digits13_lang] at ha hb hc hd
      rw [heq, hsplit a b c d ha.2.2 hb.2.2 hc.2.2 hd.2.2] at h
      simp only [List.all_cons, List.all_nil, Bool.and_true, Bool.and_eq_true] at h
      obtain ⟨ka, kb, kc, kd⟩ := h
      refine ⟨a, b, c, d, heq, (octetCheck_of_digits a ha).1 ?_,
        (octetCheck_of_digits b hb).1 ?_, (octetCheck_of_digits c hc).1 ?_,
        (octetCheck_of_digits d hd).1 ?_⟩
      · simp only [Bool.and_eq_true]; exact ka
      · simp only [Bool.and_eq_true]; exact kb
      · simp only [Bool.and_eq_true]; exact kc
      · simp only [Bool.and_eq_true]; exact kd
    · rw [if_neg hm] at h
      exact absurd h hm
  · rintro ⟨a, b, c, d, heq, ha, hb, hc, hd⟩
    have da : 1 ≤ a.length ∧ a.length ≤ 3 ∧ ∀ x ∈ a, isDigit x = true := ⟨ha.1, ha.2.1, ha.2.2.1⟩
    have db : 1 ≤ b.length ∧ b.length ≤ 3 ∧ ∀ x ∈ b, isDigit x = true := ⟨hb.1, hb.2.1, hb.2.2.1⟩
    have dc : 1 ≤ c.length ∧ c.length ≤ 3 ∧ ∀ x ∈ c, isDigit x = true := ⟨hc.1, hc.2.1, hc.2.2.1⟩
    have dd : 1 ≤ d.length ∧ d.length ≤ 3 ∧ ∀ x ∈ d, isDigit x = true := ⟨hd.1, hd.2.1, hd.2.2.1⟩
    have hm : APConfig.ipRegex.testWhole (trim ip) = true :=
      (Regex.testWhole_iff _ _).2 ((apIpRegex_lang _).2
        ⟨a, b, c, d, heq, (digits13_lang a).2 da, (digits13_lang b).2 db,
          (digits13_lang c).2 dc, (digits13_lang d).2 dd⟩)
    rw [if_pos hm, heq, hsplit a b c d da.2.2 db.2.2 dc.2.2 dd.2.2]
    simp only [List.all_cons, List.all_nil, Bool.and_true]
    rw [(octetCheck_of_digits a da).2 ha, (octetCheck_of_digits b db).2 hb,
      (octetCheck_of_digits c dc).2 hc, (octetCheck_of_digits d dd).2 hd]
    rfl

/-- C9: `validateForm()` of ap-config.js is true exactly when the trimmed SSID
has 1 to 32 code units, the password as typed has 8 to 63, and the trimmed IP is
four dot-separated groups of 1 to 3 decimal digits with value 0 to 255; it runs
the three validators whatever the earlier ones returned, each reporting its
own field: an empty message when the field is valid, its error message when
not. -/
theorem apValidateForm_iff_all_fields_valid (ssid password ip : JSString) :
    ((APConfig.validateForm ssid password ip).1 = true ↔
      (1 ≤ (trim ssid).length ∧ (trim ssid).length ≤ 32) ∧
      (8 ≤ password.length ∧ password.length ≤ 63) ∧ IsDottedQuad (trim ip)) ∧
    (∃ ssidOk passwordOk ipOk : Bool,
      (ssidOk = true ↔ 1 ≤ (trim ssid).length ∧ (trim ssid).length ≤ 32) ∧
      (passwordOk = true ↔ 8 ≤ password.length ∧ password.length ≤ 63) ∧
      (ipOk = true ↔ IsDottedQuad (trim ip)) ∧
      (APConfig.validateForm ssid password ip).2 =
        [⟨lit "ap-ssid", ssidOk,
            if ssidOk then [] else lit "SSID deve ter entre 1 e 32 caracteres"⟩,
         ⟨lit "ap-password", passwordOk,
            if passwordOk then [] else lit "Senha deve ter entre 8 e 63 caracteres"⟩,
         ⟨lit "ap-ip", ipOk,
            if ipOk then [] else lit "IP deve estar no formato válido (ex: 192.168.4.1)"⟩]) := by
  have hs : (APConfig.validateSSID ssid).1 = true ↔
      1 ≤ (trim ssid).length ∧ (trim ssid).length ≤ 32 := by
    simp [APConfig.validateSSID]
  have hp : (APConfig.validatePassword password).1 = true ↔
      8 ≤ password.length ∧ password.length ≤ 63 := by
    simp [APConfig.validatePassword]
  refine ⟨?_, (APConfig.validateSSID ssid).1, (APConfig.validatePassword password).1,
    (APConfig.validateIP ip).1, hs, hp, apValidateIP_iff ip, rfl⟩
  have hfst : (APConfig.validateForm ssid password ip).1 =
      ((APConfig.validateSSID ssid).1 && (APConfig.validatePassword password).1 &&
        (APConfig.validateIP ip).1) := rfl
  rw [hfst, Bool.and_eq_true, Bool.and_eq_true, hs, hp, apValidateIP_iff, and_assoc]

/-! ### The status poller (wifi-status.js) -/

/-- C8 (what the code does): with a device that stays in `Conectando` and
answers each request after 4 s, the timeout clears the interval at 30 s, the
answer to the request of 27 s arrives at 31 s and `updateStatusDisplay` starts
a new interval, which issues requests at 34 s and 37 s, later than 30 s after
the first call of `startStatusChecking`. -/
theorem poller_restarts_after_window :
    (runPoller slowConnectingServer 18 pollerStarted).statusCheckInterval = none ∧
    (runPoller slowConnectingServer 18 pollerStarted).requests =
      [3000, 6000, 9000, 12000, 15000, 18000, 21000, 24000, 27000] ∧
    (runPoller slowConnectingServer 19 pollerStarted).statusCheckInterval = some 1 ∧
    (runPoller slowConnectingServer 22 pollerStarted).requests =
      [3000, 6000, 9000, 12000, 15000, 18000, 21000, 24000, 27000, 34000, 37000] ∧
    ∃ t ∈ (runPoller slowConnectingServer 22 pollerStarted).requests, 30000 < t := by
  refine ⟨by decide, by decide, by decide, by decide, 34000, by decide, by decide⟩

/-! ### The required rule of validateField (scripts.js) -/

theorem lit_append_head (a b : JSString) (x y : JSString) (c d : Nat) (ha : a = c :: x)
    (hb : b = d :: y) (hcd : c ≠ d) (z : JSString) : a ++ z ≠ b := by
  subst ha hb
  intro h
  simp only [List.cons_append, List.cons.injEq] at h
  exact hcd h.1

theorem validateByType_snd_ne_required (parseFloat : JSString → JSNumber) (field : Field)
    (value : JSString) :
    (validateByType parseFloat field value).2 ≠ lit "Este campo é obrigatório" := by
  have hmin : ∀ z : JSString, lit "Valor mínimo: " ++ z ≠ lit "Este campo é obrigatório" :=
    lit_append_head _ _ _ _ 0x56 0x45 rfl rfl (by decide)
  have hmax : ∀ z : JSString, lit "Valor máximo: " ++ z ≠ lit "Este campo é obrigatório" :=
    lit_append_head _ _ _ _ 0x56 0x45 rfl rfl (by decide)
  unfold validateByType
  by_cases h1 : field.type = lit "email"
  · rw [if_pos h1]
    by_cases h2 : (!validateEmail value) = true
    · rw [if_pos h2]; decide
    · rw [if_neg h2]; decide
  · rw [if_neg h1]
    by_cases h2 : field.type = lit "number"
    · rw [if_pos h2]
      simp only
      by_cases h3 : (parseFloat value).isNaN = true
      · rw [if_pos h3]; decide
      · rw [if_neg h3]
        by_cases h4 : (attrTruthy field.min &&
            (parseFloat value).lt (parseFloat (attrString field.min))) = true
        · rw [if_pos h4]; exact hmin _
        · rw [if_neg h4]
          by_cases h5 : (attrTruthy field.max &&
              (parseFloat value).gt (parseFloat (attrString field.max))) = true
          · rw [if_pos h5]; exact hmax _
          · rw [if_neg h5]; decide
    · rw [if_neg h2]; decide

/-- C11: `validateField` reports `Este campo é obrigatório` (and then returns
false) exactly when the control has the `required` attribute and its trimmed
value is empty; a control without `required` whose trimmed value is empty is
valid with no message, whatever its type and name. -/
theorem validateField_required_iff (parseFloat : JSString → JSNumber) (field : Field) :
    ((validateField parseFloat field).2 = lit "Este campo é obrigatório" ↔
      field.required = true ∧ trim field.value = []) ∧
    (validateField parseFloat field = (false, lit "Este campo é obrigatório") ↔
      field.required = true ∧ trim field.value = []) ∧
    (field.required = false → trim field.value = [] →
      validateField parseFloat field = (true, [])) := by
  have hreq : field.required = true ∧ trim field.value = [] →
      validateField parseFloat field = (false, lit "Este campo é obrigatório") := by
    rintro ⟨h1, h2⟩
    simp [validateField, h1, h2]
  have hother : ¬ (field.required = true ∧ trim field.value = []) →
      (validateField parseFloat field).2 ≠ lit "Este campo é obrigatório" := by
    intro hn
    have hc : (field.required && (trim field.value).isEmpty) = false := by
      rw [← Bool.not_eq_true, Bool.and_eq_true, List.isEmpty_iff]
      exact hn
    unfold validateField
    simp only [hc, Bool.false_eq_true, if_false]
    split_ifs
    · decide
    · decide
    · exact validateByType_snd_ne_required _ _ _
    · decide
  refine ⟨⟨fun h => ?_, fun h => by rw [hreq h]⟩, ⟨fun h => ?_, hreq⟩, ?_⟩
  · by_contra hn
    exact hother hn h
  · by_contra hn
    exact hother hn (by rw [h])
  · intro h1 h2
    simp [validateField, h1, h2]

/-- Instance of C11: an optional e-mail control holding only blanks is valid. -/
theorem validateField_required_iff_witness :
    validateField (fun _ => JSNumber.nan)
      ⟨lit "   ", lit "email", lit "port", false, none, none⟩ = (true, []) :=
  (validateField_required_iff (fun _ => JSNumber.nan)
    ⟨lit "   ", lit "email", lit "port", false, none, none⟩).2.2 rfl (by decide)

/-! ### The countdown of confirmation.js -/

theorem JSNumber.decrement_natCast_succ (m : Nat) :
    (JSNumber.finite ((m + 1 : Nat) : ℚ)).decrement = JSNumber.ofNat m := by
  have hint : (((m + 1 : Nat) : ℚ)).isInt = true := by
    unfold Rat.isInt
    rw [Rat.den_natCast]
    rfl
  have hnum : (((m + 1 : Nat) : ℚ)).num = ((m + 1 : Nat) : ℤ) := Rat.num_natCast _
  simp only [JSNumber.decrement, hint, if_true, hnum, JSNumber.ofInt]
  have h0 : ¬ (((m + 1 : Nat) : ℤ) - 1 < 0) := by push_cast; omega
  have h1 : (((m + 1 : Nat) : ℤ) - 1).toNat = m := by push_cast; omega
  rw [if_neg h0, h1]

theorem JSNumber.gt_zero_natCast (m : Nat) :
    (JSNumber.finite (m : ℚ)).gt (.finite 0) = decide (0 < m) := by
  cases m with
  | zero => simp [JSNumber.gt, JSNumber.lessThan]
  | succ m =>
    have h : (0 : ℚ) < (m : ℚ) + 1 := by positivity
    simp [JSNumber.gt, JSNumber.lessThan, h]

theorem JSNumber.le_zero_natCast (m : Nat) :
    (JSNumber.finite (m : ℚ)).le (.finite 0) = decide (m = 0) := by
  cases m with
  | zero => simp [JSNumber.le, JSNumber.lessThan]
  | succ m =>
    have h : (0 : ℚ) < (m : ℚ) + 1 := by positivity
    simp [JSNumber.le, JSNumber.lessThan, h]

theorem countdownAfter_running (numberToString : JSNumber → JSString) (page : ConfirmationPage)
    (text : JSString) (n : Nat) (htext : page.countdownText = some text)
    (hshown : page.redirectShown = true) (hn : parseInt text = .finite (n : ℚ))
    (h53 : n ≤ 2 ^ 53) :
    ∀ k, k < n → countdownAfter numberToString page k =
      { countdown := .finite ((n - k : Nat) : ℚ)
        text := if k = 0 then some text else some (numberToString (.finite ((n - k : Nat) : ℚ)))
        intervalActive := true
        redirects := [] } := by
  intro k
  induction k with
  | zero =>
    intro hk
    simp only [countdownAfter, onConfirmationLoaded, htext, hshown, if_true, hn,
      JSNumber.gt_zero_natCast, Nat.sub_zero]
    simp [hk]
  | succ k ih =>
    intro hk
    have ihk := ih (by omega)
    have hsub : n - k = (n - (k + 1)) + 1 := by omega
    have hlt : n - (k + 1) < 2 ^ 53 := by omega
    have hne : ¬ (n - (k + 1) = 0) := by omega
    simp only [countdownAfter, ihk, countdownTick, if_true]
    rw [hsub, JSNumber.decrement_natCast_succ, JSNumber.ofNat_of_lt hlt,
      JSNumber.le_zero_natCast]
    simp [hne]

theorem countdownAfter_done (numberToString : JSNumber → JSString) (page : ConfirmationPage)
    (text : JSString) (n : Nat) (htext : page.countdownText = some text)
    (hshown : page.redirectShown = true) (hn : parseInt text = .finite (n : ℚ))
    (h1 : 1 ≤ n) (h53 : n ≤ 2 ^ 53) :
    ∀ k, n ≤ k → countdownAfter numberToString page k =
      { countdown := .finite 0
        text := some (numberToString (.finite 0))
        intervalActive := false
        redirects :=
          [if attrTruthy page.returnHref then attrString page.returnHref else lit "/"] } := by
  have hbase : countdownAfter numberToString page n =
      { countdown := .finite 0
        text := some (numberToString (.finite 0))
        intervalActive := false
        redirects :=
          [if attrTruthy page.returnHref then attrString page.returnHref else lit "/"] } := by
    obtain ⟨m, rfl⟩ : ∃ m, n = m + 1 := ⟨n - 1, by omega⟩
    have hrun := countdownAfter_running numberToString page text (m + 1) htext hshown hn h53
      m (by omega)
    have hsub : m + 1 - m = 0 + 1 := by omega
    have hlt : 0 < 2 ^ 53 := by norm_num
    simp only [countdownAfter, hrun, countdownTick, if_true]
    rw [hsub, JSNumber.decrement_natCast_succ, JSNumber.ofNat_of_lt hlt,
      JSNumber.le_zero_natCast]
    simp
  intro k hk
  induction k with
  | zero =>
    have : n = 0 := by omega
    omega
  | succ k ih =>
    by_cases hkn : n = k + 1
    · rw [← hkn]; exact hbase
    · have ihk := ih (by omega)
      simp only [countdownAfter, ihk, countdownTick]
      simp

theorem countdownAfter_idle (numberToString : JSNumber → JSString) (page : ConfirmationPage)
    (h : (onConfirmationLoaded page).intervalActive = false) :
    ∀ k, countdownAfter numberToString page k = onConfirmationLoaded page := by
  intro k
  induction k with
  | zero => rfl
  | succ k ih =>
    simp only [countdownAfter, ih, countdownTick, h]
    simp

theorem onConfirmationLoaded_redirects (page : ConfirmationPage) :
    (onConfirmationLoaded page).redirects = [] := by
  unfold onConfirmationLoaded
  cases page.countdownText with
  | none => rfl
  | some text =>
    cases page.redirectShown <;> rfl

theorem log2_eq_of_bounds {n k : Nat} (h1 : 2 ^ k ≤ n) (h2 : n < 2 ^ (k + 1)) :
    Nat.log2 n = k := by
  have hn0 : n ≠ 0 := by
    have : 0 < 2 ^ k := Nat.pos_pow_of_pos _ (by norm_num)
    omega
  have ha : k ≤ Nat.log2 n := (Nat.le_log2 hn0).2 h1
  have hb : Nat.log2 n < k + 1 := (Nat.log2_lt hn0).2 h2
  omega

theorem JSNumber.ofNat_two_pow_53_add_two :
    JSNumber.ofNat 9007199254740994 = .finite ((9007199254740994 : Nat) : ℚ) := by
  have hlog : Nat.log2 9007199254740994 = 53 :=
    log2_eq_of_bounds (by norm_num) (by norm_num)
  unfold JSNumber.ofNat
  rw [if_neg (by norm_num), hlog]
  norm_num

theorem JSNumber.ofNat_two_pow_53_add_one :
    JSNumber.ofNat 9007199254740993 = .finite ((9007199254740992 : Nat) : ℚ) := by
  have hlog : Nat.log2 9007199254740993 = 53 :=
    log2_eq_of_bounds (by norm_num) (by norm_num)
  unfold JSNumber.ofNat
  rw [if_neg (by norm_num), hlog]
  norm_num

/-- C12 as stated fails: on a page whose countdown holds the integer
9007199254740994 (which `parseInt` reads exactly), the first tick leaves
9007199254740992 in the counter and in the element, not 9007199254740993. -/
theorem countdown_skips_above_two_pow_53 :
    hugeCountdownPage.countdownText = some (lit "9007199254740994") ∧
    hugeCountdownPage.redirectShown = true ∧
    parseInt (lit "9007199254740994") = .finite ((9007199254740994 : Nat) : ℚ) ∧
    (∀ numberToString : JSNumber → JSString,
      (countdownAfter numberToString hugeCountdownPage 1).countdown =
        .finite ((9007199254740992 : Nat) : ℚ) ∧
      (countdownAfter numberToString hugeCountdownPage 1).text =
        some (numberToString (.finite ((9007199254740992 : Nat) : ℚ)))) ∧
    (9007199254740992 : Nat) ≠ 9007199254740994 - 1 := by
  have hparse : parseInt (lit "9007199254740994") =
      .finite ((9007199254740994 : Nat) : ℚ) := by
    rw [parseInt_of_digits _ (by decide) (by decide)]
    have hv : decValue (lit "9007199254740994") = 9007199254740994 := by decide
    rw [hv, JSNumber.ofNat_two_pow_53_add_two]
  have hdec : (JSNumber.finite ((9007199254740994 : Nat) : ℚ)).decrement =
      .finite ((9007199254740992 : Nat) : ℚ) := by
    rw [show (9007199254740994 : Nat) = 9007199254740993 + 1 from rfl,
      JSNumber.decrement_natCast_succ, JSNumber.ofNat_two_pow_53_add_one]
  have hgt : (JSNumber.finite ((9007199254740994 : Nat) : ℚ)).gt (.finite 0) = true := by
    rw [JSNumber.gt_zero_natCast]; decide
  have hle : (JSNumber.finite ((9007199254740992 : Nat) : ℚ)).le (.finite 0) = false := by
    rw [JSNumber.le_zero_natCast]; decide
  refine ⟨rfl, rfl, hparse, fun numberToString => ?_, by decide⟩
  have hstate : countdownAfter numberToString hugeCountdownPage 1 =
      { countdown := .finite ((9007199254740992 : Nat) : ℚ)
        text := some (numberToString (.finite ((9007199254740992 : Nat) : ℚ)))
        intervalActive := true
        redirects := [] } := by
    simp only [countdownAfter, onConfirmationLoaded, hugeCountdownPage, if_true, hparse, hgt,
      countdownTick, hdec, hle, Bool.false_eq_true, if_false]
  rw [hstate]
  exact ⟨rfl, rfl⟩

/-- C12 (amended): when the countdown element holds an integer `n` with
`1 ≤ n ≤ 2^53` and the redirect block is displayed, after `k < n` ticks the
counter is `n - k`, the element shows it, the interval runs and nothing has
been redirected; from the `n`-th tick on the element shows 0, the interval is
cleared and exactly one redirect has happened, to the `href` of `.btn-primary`
when it has one and to `/` otherwise.  When an element is missing, the block
is hidden, or the parsed value is 0, negative or `NaN`, no interval is started
and no redirect ever happens. -/
theorem countdown_redirects_at_nth_tick (numberToString : JSNumber → JSString)
    (page : ConfirmationPage) :
    (∀ (text : JSString) (n : Nat), page.countdownText = some text →
      page.redirectShown = true → parseInt text = .finite (n : ℚ) → 1 ≤ n → n ≤ 2 ^ 53 →
      (∀ k, k < n → countdownAfter numberToString page k =
        { countdown := .finite ((n - k : Nat) : ℚ)
          text := if k = 0 then some text
            else some (numberToString (.finite ((n - k : Nat) : ℚ)))
          intervalActive := true
          redirects := [] }) ∧
      (∀ k, n ≤ k → countdownAfter numberToString page k =
        { countdown := .finite 0
          text := some (numberToString (.finite 0))
          intervalActive := false
          redirects :=
            [if attrTruthy page.returnHref then attrString page.returnHref else lit "/"] })) ∧
    ((page.countdownText = none ∨ page.redirectShown = false ∨
        ∃ text, page.countdownText = some text ∧
          (parseInt text = .nan ∨ ∃ z : ℤ, z ≤ 0 ∧ parseInt text = .finite (z : ℚ))) →
      ∀ k, (countdownAfter numberToString page k).intervalActive = false ∧
        (countdownAfter numberToString page k).redirects = [] ∧
        (countdownAfter numberToString page k).text = page.countdownText) := by
  refine ⟨fun text n htext hshown hn h1 h53 =>
    ⟨countdownAfter_running numberToString page text n htext hshown hn h53,
     countdownAfter_done numberToString page text n htext hshown hn h1 h53⟩, ?_⟩
  intro h k
  have hidle : (onConfirmationLoaded page).intervalActive = false := by
    unfold onConfirmationLoaded
    rcases h with h | h | ⟨text, htext, hp⟩
    · rw [h]
    · cases page.countdownText with
      | none => rfl
      | some text => rw [h]; rfl
    · rw [htext]
      cases page.redirectShown with
      | false => rfl
      | true =>
        simp only [if_true]
        rcases hp with hp | ⟨z, hz, hp⟩
        · rw [hp]; rfl
        · rw [hp]
          have hz2 : ¬ ((0 : ℚ) < (z : ℚ)) := by
            have : (z : ℚ) ≤ 0 := by exact_mod_cast hz
            linarith
          simp [JSNumber.gt, JSNumber.lessThan, hz2]
  have htxt : (onConfirmationLoaded page).text = page.countdownText := by
    unfold onConfirmationLoaded
    cases page.countdownText with
    | none => rfl
    | some text => cases page.redirectShown <;> rfl
  rw [countdownAfter_idle numberToString page hidle k]
  exact ⟨hidle, onConfirmationLoaded_redirects page, htxt⟩

/-- Instance of C12 (amended): a page counting down from 3 with a return link
to `/home` redirects there at the third tick, once. -/
theorem countdown_redirects_at_nth_tick_witness :
    (countdownAfter (fun _ => []) ⟨some (lit "3"), true, some (lit "/home")⟩ 2).redirects = [] ∧
    (countdownAfter (fun _ => []) ⟨some (lit "3"), true, some (lit "/home")⟩ 5).redirects =
      [lit "/home"] :=
  ⟨by
    rw [((countdown_redirects_at_nth_tick (fun _ => [])
      ⟨some (lit "3"), true, some (lit "/home")⟩).1 (lit "3") 3 rfl rfl (by decide)
      (by decide) (by norm_num)).1 2 (by decide)],
   by
    rw [((countdown_redirects_at_nth_tick (fun _ => [])
      ⟨some (lit "3"), true, some (lit "/home")⟩).1 (lit "3") 3 rfl rfl (by decide)
      (by decide) (by norm_num)).2 5 (by decide)]
    rfl⟩

/-! ### The single-poller invariant (wifi-status.js) -/

theorem activeIntervals_schedule_tick (due id : Nat) (agenda : List (Nat × Task))
    (h : activeIntervals agenda = []) :
    activeIntervals (schedule due (Task.tick id) agenda) = [id] := by
  induction agenda with
  | nil => rfl
  | cons e rest ih =>
    obtain ⟨t, x⟩ := e
    cases x with
    | tick j => simp [activeIntervals] at h
    | timeout =>
      simp only [activeIntervals] at h
      simp only [schedule]
      split_ifs
      · simp only [activeIntervals]; exact ih h
      · simp only [activeIntervals, h]
    | arrive st =>
      simp only [activeIntervals] at h
      simp only [schedule]
      split_ifs
      · simp only [activeIntervals]; exact ih h
      · simp only [activeIntervals, h]

theorem activeIntervals_schedule_other (due : Nat) (task : Task)
    (agenda : List (Nat × Task)) (h : ∀ id, task ≠ Task.tick id) :
    activeIntervals (schedule due task agenda) = activeIntervals agenda := by
  induction agenda with
  | nil =>
    cases task with
    | tick j => exact absurd rfl (h j)
    | timeout => rfl
    | arrive st => rfl
  | cons e rest ih =>
    obtain ⟨t, x⟩ := e
    simp only [schedule]
    split_ifs
    · cases x with
      | tick j => simp only [activeIntervals, ih]
      | timeout => simp only [activeIntervals, ih]
      | arrive st => simp only [activeIntervals, ih]
    · cases task with
      | tick j => exact absurd rfl (h j)
      | timeout => rfl
      | arrive st => rfl

theorem activeIntervals_clearInterval (id : Nat) (agenda : List (Nat × Task)) :
    activeIntervals (clearInterval id agenda) = (activeIntervals agenda).filter (· ≠ id) := by
  induction agenda with
  | nil => rfl
  | cons e rest ih =>
    obtain ⟨t, x⟩ := e
    unfold clearInterval at ih ⊢
    cases x with
    | tick j =>
      by_cases hj : j = id
      · subst hj
        rw [List.filter_cons_of_neg (by simp)]
        simp only [activeIntervals]
        rw [List.filter_cons_of_neg (by simp)]
        exact ih
      · have hne : Task.tick j ≠ Task.tick id := fun e => hj (Task.tick.inj e)
        rw [List.filter_cons_of_pos (by simpa using hne)]
        simp only [activeIntervals]
        rw [List.filter_cons_of_pos (by simpa using hj)]
        rw [ih]
    | timeout =>
      rw [List.filter_cons_of_pos (by simp)]
      simp only [activeIntervals]
      exact ih
    | arrive st =>
      rw [List.filter_cons_of_pos (by simp)]
      simp only [activeIntervals]
      exact ih

theorem singlePoller_stop {s : Poller} (h : SinglePoller s) :
    SinglePoller (stopStatusChecking s) := by
  unfold SinglePoller at h ⊢
  unfold stopStatusChecking
  cases hs : s.statusCheckInterval with
  | none => simpa [hs] using h
  | some id =>
    rw [hs] at h
    simp only [activeIntervals_clearInterval, h, Option.toList]
    simp

theorem singlePoller_start (now : Nat) {s : Poller} (h : SinglePoller s) :
    SinglePoller (startStatusChecking now s) := by
  unfold SinglePoller at h ⊢
  unfold startStatusChecking
  cases hs : s.statusCheckInterval with
  | none =>
    rw [hs] at h
    simp only [Option.toList] at h
    simp only [Option.toList]
    rw [activeIntervals_schedule_other _ _ _ (by intro id; exact fun e => Task.noConfusion e),
      activeIntervals_schedule_tick _ _ _ h]
  | some id => simpa [hs] using h

theorem singlePoller_update (now : Nat) (status : JSString) {s : Poller}
    (h : SinglePoller s) : SinglePoller (updateStatusDisplay now status s) := by
  unfold updateStatusDisplay
  split_ifs
  · exact singlePoller_stop h
  · exact singlePoller_start now h
  · exact h
  · exact singlePoller_stop h
  · exact h

theorem singlePoller_step (server : Server) {s t : Poller} (h : SinglePoller s)
    (hstep : stepPoller server s = some t) : SinglePoller t := by
  unfold stepPoller at hstep
  cases hag : s.agenda with
  | nil => simp [hag] at hstep
  | cons e rest =>
    obtain ⟨now, task⟩ := e
    rw [hag] at hstep
    have hinv := h
    unfold SinglePoller at hinv
    rw [hag] at hinv
    cases task with
    | tick id =>
      simp only [Option.some.injEq] at hstep
      subst hstep
      simp only [activeIntervals] at hinv
      have hsci : s.statusCheckInterval = some id := by
        cases hs : s.statusCheckInterval with
        | none => rw [hs] at hinv; simp [Option.toList] at hinv
        | some j =>
          rw [hs] at hinv
          simp only [Option.toList, List.cons.injEq] at hinv
          rw [hinv.1]
      have hrest : activeIntervals rest = [] := by
        rw [hsci] at hinv
        simp only [Option.toList, List.cons.injEq, true_and] at hinv
        exact hinv
      unfold SinglePoller checkStatus
      simp only [hsci, Option.toList]
      cases server s.requests.length with
      | none => exact activeIntervals_schedule_tick _ _ _ hrest
      | some r =>
        obtain ⟨delay, status⟩ := r
        simp only
        rw [activeIntervals_schedule_other _ _ _
          (by intro j; exact fun e => Task.noConfusion e)]
        exact activeIntervals_schedule_tick _ _ _ hrest
    | timeout =>
      simp only [Option.some.injEq] at hstep
      subst hstep
      apply singlePoller_stop
      unfold SinglePoller
      simpa [activeIntervals] using hinv
    | arrive status =>
      simp only [Option.some.injEq] at hstep
      subst hstep
      apply singlePoller_update
      unfold SinglePoller
      simpa [activeIntervals] using hinv

theorem singlePoller_of_reachable {s : Poller} (h : PollerReachable s) : SinglePoller s := by
  induction h with
  | loaded => rfl
  | start now _ ih => exact singlePoller_start now ih
  | stop _ ih => exact singlePoller_stop ih
  | update now status _ ih => exact singlePoller_update now status ih
  | fire server _ hstep ih => exact singlePoller_step server ih hstep

/-- C13: in every state reachable through `startStatusChecking`,
`stopStatusChecking`, `updateStatusDisplay` and the firing of the pending
tasks (the 30-second timeout among them), at most one polling interval is
active, `statusCheckInterval` is non-null exactly when one is, and it names
that interval; `startStatusChecking` changes nothing when polling is active
and `stopStatusChecking` changes nothing when it is not. -/
theorem poller_single_interval (s : Poller) (h : PollerReachable s) :
    (activeIntervals s.agenda).length ≤ 1 ∧
    (s.statusCheckInterval ≠ none ↔ (activeIntervals s.agenda).length = 1) ∧
    activeIntervals s.agenda = s.statusCheckInterval.toList ∧
    (s.statusCheckInterval ≠ none → ∀ now, startStatusChecking now s = s) ∧
    (s.statusCheckInterval = none → stopStatusChecking s = s) := by
  have hinv : activeIntervals s.agenda = s.statusCheckInterval.toList :=
    singlePoller_of_reachable h
  refine ⟨?_, ?_, hinv, ?_, ?_⟩
  · rw [hinv]
    cases s.statusCheckInterval <;> simp [Option.toList]
  · rw [hinv]
    cases s.statusCheckInterval <;> simp [Option.toList]
  · intro hne now
    unfold startStatusChecking
    cases hs : s.statusCheckInterval with
    | none => exact absurd hs hne
    | some id => rfl
  · intro hnone
    unfold stopStatusChecking
    rw [hnone]

/-- Instance of C13: the page right after the first call of
`startStatusChecking` is reachable and has the single interval 0. -/
theorem poller_single_interval_witness :
    PollerReachable pollerStarted ∧
    activeIntervals pollerStarted.agenda = [0] ∧ pollerStarted.statusCheckInterval = some 0 :=
  ⟨PollerReachable.start 0 PollerReachable.loaded,
   by
    rw [(poller_single_interval pollerStarted
      (PollerReachable.start 0 PollerReachable.loaded)).2.2.1]
    rfl,
   rfl⟩

/-! ### The saved file name in the upload status (config_manager.js) -/

theorem Regex.run_str (P : JSString) :
    ∀ s : JSString, Regex.run (Regex.str P) s =
      if P.isPrefixOf s = true then [s.drop P.length] else [] := by
  induction P with
  | nil => intro s; simp [Regex.str, Regex.run]
  | cons c P ih =>
    intro s
    cases s with
    | nil => simp [Regex.str, Regex.run, Regex.chr, List.isPrefixOf]
    | cons d t =>
      simp only [Regex.str, Regex.run, Regex.chr, List.isPrefixOf, List.length_cons,
        List.drop_succ_cons]
      by_cases hd : d = c
      · subst hd
        simp [ih]
      · have hd2 : (c == d) = false := by
          rw [beq_eq_false_iff_ne]; exact fun e => hd e.symm
        simp [hd, hd2]

theorem Regex.runPlus_head (p : Nat → Bool) :
    ∀ (t : JSString) (c : Nat), p c = true →
      (Regex.runPlus p (c :: t)).head? = some (t.dropWhile p) := by
  intro t
  induction t with
  | nil => intro c hc; simp [Regex.runPlus, hc]
  | cons d t ih =>
    intro c hc
    by_cases hd : p d = true
    · have h := ih d hd
      have hrun : Regex.runPlus p (c :: d :: t) = Regex.runPlus p (d :: t) ++ [d :: t] := by
        simp [Regex.runPlus, hc]
      rw [hrun]
      cases hl : Regex.runPlus p (d :: t) with
      | nil => rw [hl] at h; simp at h
      | cons x l =>
        rw [hl] at h
        simp only [List.head?_cons, Option.some.injEq] at h
        simp [List.dropWhile, hd, h]
    · have hd2 : p d = false := by simpa using hd
      simp [Regex.runPlus, hc, hd2, List.dropWhile]

theorem take_length_sub_dropWhile (p : Nat → Bool) (t : JSString) :
    t.take (t.length - (t.dropWhile p).length) = t.takeWhile p := by
  have h := List.takeWhile_append_dropWhile p t
  have hlen := congrArg List.length h
  rw [List.length_append] at hlen
  have h2 : t.length - (t.dropWhile p).length = (t.takeWhile p).length := by omega
  rw [h2]
  have h3 : List.take (t.takeWhile p).length (t.takeWhile p ++ t.dropWhile p) =
      t.takeWhile p := List.take_left' rfl
  rw [h] at h3
  exact h3

theorem captureAt_config (s : JSString) :
    Regex.captureAt configPathRegex configNameRegex s =
      if (lit "/data/config/").isPrefixOf s = true then
        match s.drop (lit "/data/config/").length with
        | c :: r => if notQuoteSpace c = true then some ((c :: r).takeWhile notQuoteSpace)
            else none
        | [] => none
      else none := by
  unfold Regex.captureAt configPathRegex configNameRegex
  rw [Regex.run_str]
  by_cases hp : (lit "/data/config/").isPrefixOf s = true
  · rw [if_pos hp, if_pos hp]
    simp only [List.findSome?_cons, List.findSome?_nil]
    cases hdrop : s.drop (lit "/data/config/").length with
    | nil => simp [Regex.run, Regex.runPlus]
    | cons c r =>
      by_cases hc : notQuoteSpace c = true
      · have hh := Regex.runPlus_head notQuoteSpace r c hc
        simp only [Regex.run, hh, Option.map_some', hc, if_true]
        have ht := take_length_sub_dropWhile notQuoteSpace (c :: r)
        simp only [List.dropWhile, hc] at ht
        rw [ht]
      · have hc2 : notQuoteSpace c = false := by simpa using hc
        simp [Regex.run, Regex.runPlus, hc2]
  · rw [if_neg hp, if_neg hp]
    rfl

theorem notQuoteSpace_iff (c : Nat) : notQuoteSpace c = true ↔ IsNameChar c := by
  unfold notQuoteSpace IsNameChar
  cases h : isWhiteSpace c <;> simp

theorem isPrefixOf_append_self (P t : JSString) : P.isPrefixOf (P ++ t) = true :=
  List.isPrefixOf_iff_prefix.2 (List.prefix_append P t)

theorem captureAt_of_namedPath (c : Nat) (r : JSString) (hc : IsNameChar c) :
    Regex.captureAt configPathRegex configNameRegex (lit "/data/config/" ++ c :: r) =
      some ((c :: r).takeWhile notQuoteSpace) := by
  rw [captureAt_config, if_pos (isPrefixOf_append_self _ _), List.drop_left]
  simp only [(notQuoteSpace_iff c).2 hc, if_true]

theorem namedPathAt_nil_of_captureAt {s x : JSString}
    (h : Regex.captureAt configPathRegex configNameRegex s = some x) : NamedPathAt s [] := by
  rw [captureAt_config] at h
  by_cases hp : (lit "/data/config/").isPrefixOf s = true
  · rw [if_pos hp] at h
    obtain ⟨t, rfl⟩ := List.isPrefixOf_iff_prefix.1 hp
    rw [List.drop_left] at h
    cases t with
    | nil => simp at h
    | cons c r =>
      by_cases hc : notQuoteSpace c = true
      · exact ⟨c, r, rfl, (notQuoteSpace_iff c).1 hc⟩
      · simp [hc] at h
  · rw [if_neg hp] at h
    simp at h

theorem captureAt_none_of_not_namedPath {s : JSString} (h : ¬ NamedPathAt s []) :
    Regex.captureAt configPathRegex configNameRegex s = none := by
  cases hc : Regex.captureAt configPathRegex configNameRegex s with
  | none => rfl
  | some x => exact absurd (namedPathAt_nil_of_captureAt hc) h

theorem matchGroup_of_captureAt {pre grp : Regex} {s x : JSString}
    (h : Regex.captureAt pre grp s = some x) : Regex.matchGroup pre grp s = some x := by
  cases s with
  | nil => simpa [Regex.matchGroup] using h
  | cons c t => simp [Regex.matchGroup, h]

theorem matchGroup_cons_of_none {pre grp : Regex} {c : Nat} {t : JSString}
    (h : Regex.captureAt pre grp (c :: t) = none) :
    Regex.matchGroup pre grp (c :: t) = Regex.matchGroup pre grp t := by
  simp [Regex.matchGroup, h]

theorem namedPathAt_cons {d : Nat} {t pre : JSString} (h : NamedPathAt t pre) :
    NamedPathAt (d :: t) (d :: pre) := by
  obtain ⟨c, r, rfl, hc⟩ := h
  exact ⟨c, r, rfl, hc⟩

theorem namedPathAt_of_cons {d e : Nat} {t pre : JSString}
    (h : NamedPathAt (d :: t) (e :: pre)) : NamedPathAt t pre := by
  obtain ⟨c, r, heq, hc⟩ := h
  simp only [List.cons_append, List.cons.injEq] at heq
  exact ⟨c, r, heq.2, hc⟩

theorem takeWhile_name (p : Nat → Bool) (name rest : JSString)
    (hname : ∀ c ∈ name, p c = true) (hrest : ∀ c r, rest = c :: r → p c = false) :
    (name ++ rest).takeWhile p = name := by
  induction name with
  | nil =>
    cases rest with
    | nil => rfl
    | cons c r => simp [List.takeWhile, hrest c r rfl]
  | cons c t ih =>
    have hc := hname c (List.mem_cons_self _ _)
    have iht := ih (fun d hd => hname d (List.mem_cons_of_mem _ hd))
    rw [List.cons_append, List.takeWhile_cons, if_pos hc, iht]

theorem matchGroup_leftmost (name rest : JSString) (hne : name ≠ [])
    (hname : ∀ c ∈ name, IsNameChar c) (hrest : ∀ c r, rest = c :: r → ¬ IsNameChar c) :
    ∀ pre : JSString,
      (∀ pre2, NamedPathAt (pre ++ (lit "/data/config/" ++ (name ++ rest))) pre2 →
        pre.length ≤ pre2.length) →
      Regex.matchGroup configPathRegex configNameRegex
        (pre ++ (lit "/data/config/" ++ (name ++ rest))) = some name := by
  intro pre
  induction pre with
  | nil =>
    intro _
    obtain ⟨c, t, rfl⟩ := List.exists_cons_of_ne_nil hne
    apply matchGroup_of_captureAt
    rw [List.nil_append, List.cons_append,
      captureAt_of_namedPath c (t ++ rest) (hname c (List.mem_cons_self _ _))]
    have h := takeWhile_name notQuoteSpace (c :: t) rest
      (fun d hd => (notQuoteSpace_iff d).2 (hname d hd))
      (fun d r hr => by
        have := hrest d r hr
        rw [← notQuoteSpace_iff] at this
        simpa using this)
    rw [List.cons_append] at h
    rw [h]
  | cons d pre ih =>
    intro hleft
    have hnone : Regex.captureAt configPathRegex configNameRegex
        (d :: pre ++ (lit "/data/config/" ++ (name ++ rest))) = none := by
      apply captureAt_none_of_not_namedPath
      intro h0
      have := hleft [] h0
      simp at this
    rw [List.cons_append] at hnone ⊢
    rw [matchGroup_cons_of_none hnone]
    apply ih
    intro pre2 h2
    have := hleft (d :: pre2) (namedPathAt_cons h2)
    simpa using this

theorem matchGroup_none_of_no_namedPath :
    ∀ message : JSString, (∀ pre, ¬ NamedPathAt message pre) →
      Regex.matchGroup configPathRegex configNameRegex message = none := by
  intro message
  induction message with
  | nil =>
    intro h
    simp only [Regex.matchGroup]
    exact captureAt_none_of_not_namedPath (h [])
  | cons d t ih =>
    intro h
    rw [matchGroup_cons_of_none (captureAt_none_of_not_namedPath (h []))]
    exact ih (fun pre hp => h (d :: pre) (namedPathAt_cons hp))

theorem includes_of_isPrefixOf {s sub : JSString} (h : sub.isPrefixOf s = true) :
    includes s sub = true := by
  cases s with
  | nil => simpa [includes] using h
  | cons c t => simp [includes, h]

theorem includes_append_left (pre s sub : JSString) (h : includes s sub = true) :
    includes (pre ++ s) sub = true := by
  induction pre with
  | nil => exact h
  | cons c t ih => simp [includes, ih]

theorem dropWhile_head_false (p : Nat → Bool) :
    ∀ (l : JSString) (c : Nat) (r : JSString), l.dropWhile p = c :: r → p c = false := by
  intro l
  induction l with
  | nil => intro c r h; simp at h
  | cons d t ih =>
    intro c r h
    by_cases hd : p d = true
    · rw [List.dropWhile_cons, if_pos hd] at h
      exact ih c r h
    · rw [List.dropWhile_cons, if_neg hd] at h
      simp only [List.cons.injEq] at h
      rw [← h.1]
      simpa using hd

theorem namedPath_leftmost_exists :
    ∀ message : JSString, (∃ pre, NamedPathAt message pre) →
      ∃ pre name rest : JSString,
        message = pre ++ (lit "/data/config/" ++ (name ++ rest)) ∧ name ≠ [] ∧
        (∀ c ∈ name, IsNameChar c) ∧ (∀ c r, rest = c :: r → ¬ IsNameChar c) ∧
        (∀ pre2, NamedPathAt message pre2 → pre.length ≤ pre2.length) := by
  intro message
  induction message with
  | nil =>
    rintro ⟨pre, c, r, h, -⟩
    have hl := congrArg List.length h
    simp only [List.length_nil, List.length_append, List.length_cons] at hl
    omega
  | cons d t ih =>
    rintro ⟨pre0, h0⟩
    by_cases hz : NamedPathAt (d :: t) []
    · obtain ⟨c, r, heq, hc⟩ := hz
      rw [List.nil_append] at heq
      have hpc : notQuoteSpace c = true := (notQuoteSpace_iff c).2 hc
      refine ⟨[], (c :: r).takeWhile notQuoteSpace, (c :: r).dropWhile notQuoteSpace,
        ?_, ?_, ?_, ?_, ?_⟩
      · rw [List.takeWhile_append_dropWhile, List.nil_append]
        exact heq
      · rw [List.takeWhile_cons, if_pos hpc]
        exact List.cons_ne_nil _ _
      · intro x hx
        exact (notQuoteSpace_iff x).1 (List.mem_takeWhile_imp hx)
      · intro x r2 hx hn
        have := dropWhile_head_false notQuoteSpace _ x r2 hx
        rw [(notQuoteSpace_iff x).2 hn] at this
        exact Bool.noConfusion this
      · intro pre2 _
        exact Nat.zero_le _
    · cases pre0 with
      | nil => exact absurd h0 hz
      | cons e pre0 =>
        obtain ⟨pre, name, rest, heq, hne, hname, hrest, hleft⟩ :=
          ih ⟨pre0, namedPathAt_of_cons h0⟩
        refine ⟨d :: pre, name, rest, ?_, hne, hname, hrest, ?_⟩
        · rw [List.cons_append, ← heq]
        · intro pre2 h2
          cases pre2 with
          | nil => exact absurd h2 hz
          | cons e2 pre2 =>
            have := hleft pre2 (namedPathAt_of_cons h2)
            simp only [List.length_cons]
            omega

/-- C14: when the message of a successful upload contains `/data/config/`
immediately followed by a code unit that is neither an apostrophe nor white
space, the status shown is `✅ Arquivo salvo com sucesso em /data/config/`
followed by the longest run of such code units after the leftmost such
occurrence (and such a leftmost occurrence with its run exists); in every
other case the message of the server is shown unchanged. -/
theorem uploadSuccessMessage_extracts_name (message : JSString) :
    (∀ pre name rest : JSString,
      message = pre ++ (lit "/data/config/" ++ (name ++ rest)) → name ≠ [] →
      (∀ c ∈ name, IsNameChar c) → (∀ c r, rest = c :: r → ¬ IsNameChar c) →
      (∀ pre2, NamedPathAt message pre2 → pre.length ≤ pre2.length) →
      uploadSuccessMessage message =
        lit "✅ Arquivo salvo com sucesso em /data/config/" ++ name) ∧
    ((∃ pre, NamedPathAt message pre) →
      ∃ pre name rest : JSString,
        message = pre ++ (lit "/data/config/" ++ (name ++ rest)) ∧ name ≠ [] ∧
        (∀ c ∈ name, IsNameChar c) ∧ (∀ c r, rest = c :: r → ¬ IsNameChar c) ∧
        (∀ pre2, NamedPathAt message pre2 → pre.length ≤ pre2.length)) ∧
    ((¬ ∃ pre, NamedPathAt message pre) → uploadSuccessMessage message = message) ∧
    (∀ error : JSString, uploadConfigResponse true message error =
      .showUploadStatus (uploadSuccessMessage message) (lit "success")) := by
  refine ⟨?_, namedPath_leftmost_exists message, ?_, fun _ => rfl⟩
  · intro pre name rest heq hne hname hrest hleft
    subst heq
    have hinc : includes (pre ++ (lit "/data/config/" ++ (name ++ rest)))
        (lit "/data/config/") = true :=
      includes_append_left _ _ _ (includes_of_isPrefixOf (isPrefixOf_append_self _ _))
    unfold uploadSuccessMessage
    rw [if_pos hinc, matchGroup_leftmost name rest hne hname hrest pre hleft]
  · intro hno
    have hnone := matchGroup_none_of_no_namedPath message
      (fun pre hp => hno ⟨pre, hp⟩)
    unfold uploadSuccessMessage
    rw [hnone]
    split_ifs <;> rfl

theorem namedPath_after_slashless_start (pre tail : JSString) (h : (0x2F : Nat) ∉ pre) :
    ∀ pre2, NamedPathAt (pre ++ tail) pre2 → pre.length ≤ pre2.length := by
  induction pre with
  | nil => intro pre2 _; exact Nat.zero_le _
  | cons d pre ih =>
    intro pre2 h2
    cases pre2 with
    | nil =>
      obtain ⟨c, r, heq, -⟩ := h2
      have hd : d = 0x2F := by
        have h3 : d :: (pre ++ tail) = 0x2F :: (lit "data/config/" ++ c :: r) := heq
        exact (List.cons.inj h3).1
      exact absurd (hd ▸ List.mem_cons_self d pre) h
    | cons e pre2 =>
      have := ih (fun hm => h (List.mem_cons_of_mem _ hm)) pre2 (namedPathAt_of_cons h2)
      simp only [List.length_cons]
      omega

/-- Instance of C14: the message `Salvo em /data/config/rtu.json ok` gives the
status naming `rtu.json`. -/
theorem uploadSuccessMessage_extracts_name_witness :
    uploadSuccessMessage (lit "Salvo em /data/config/rtu.json ok") =
      lit "✅ Arquivo salvo com sucesso em /data/config/" ++ lit "rtu.json" :=
  (uploadSuccessMessage_extracts_name (lit "Salvo em /data/config/rtu.json ok")).1
    (lit "Salvo em ") (lit "rtu.json") (lit " ok") (by decide) (by decide)
    (fun c hc => (notQuoteSpace_iff c).1
      ((by decide : ∀ c ∈ lit "rtu.json", notQuoteSpace c = true) c hc))
    (fun c r hr hn => by
      have h3 : (0x20 : Nat) :: lit "ok" = c :: r := hr
      have hc : c = 0x20 := (List.cons.inj h3).1.symm
      rw [hc] at hn
      exact absurd hn.2 (by decide))
    (namedPath_after_slashless_start (lit "Salvo em ")
      (lit "/data/config/" ++ (lit "rtu.json" ++ lit " ok")) (by decide))

end ModbusTCP
